import Mathlib

/-!
Verification development for the gcoder geometry / G-code engine.

The two core modules of the repository are embedded shallowly over `ℚ`:

* `src/features/gcoder/lib/stl-to-gcode.ts` — binary STL parser, layered
  slicer, toolpath builder and NC program emitter;
* `src/features/gcoder/lib/convexity.ts` — mesh sanitizer/welder, convexity
  and machinability analyzers.

JavaScript numbers are modeled as exact rationals.  The transcendental
`Math` primitives (`sqrt`, `cos`, `sin`), the IEEE-754 float32 decoding of
STL payload bytes, JS default number-to-string formatting, and the external
`convex-hull` npm package are not part of the repository's arithmetic; they
are passed in as explicit function parameters, and every theorem below is
universally quantified over them.  All other arithmetic (including
`Math.round`, `Math.ceil`, `toFixed`, comparisons and the exact double
constant `Math.PI`) is modeled exactly.
-/

namespace Gcoder

/-- JS `Math.round`: round half toward positive infinity. -/
def jround (q : ℚ) : ℤ := ⌊q + 1/2⌋

/-- JS `Math.ceil`. -/
def jceil (q : ℚ) : ℤ := ⌈q⌉

/-- The exact rational value of the IEEE-754 double `Math.PI`. -/
def piQ : ℚ := 884279719003555 / 281474976710656

/-- Transcendental / platform primitives used by the source, passed as
parameters of the embedding (see module docstring).  `numStr` is JS default
number-to-string conversion; `toExp` is `Number.prototype.toExponential`. -/
structure Prims where
  sqrt : ℚ → ℚ
  cos : ℚ → ℚ
  sin : ℚ → ℚ
  numStr : ℚ → String
  toExp : ℚ → ℕ → String

/-- IEEE-754 binary32 little-endian decode of four bytes, as a parameter
(the repository reads triangle payloads with `readFloatLE`/`getFloat32`). -/
abbrev F32 := ℕ → ℕ → ℕ → ℕ → ℚ

/-- A 3D point; the source's `{x,y,z}` records and `number[]` triples. -/
structure V3 where
  x : ℚ
  y : ℚ
  z : ℚ
deriving DecidableEq

instance : Inhabited V3 := ⟨⟨0, 0, 0⟩⟩

/-- Euler rotation angles (radians), `ModelRotation` in both modules. -/
structure ModelRotation where
  x : ℚ
  y : ℚ
  z : ℚ
deriving DecidableEq

/-! ## stl-to-gcode.ts — data model -/

/-- Source `SlicingParams`.  Optional TS fields are `Option`; the `??` defaults of
the source are applied at the use sites, exactly as in the code. -/
structure SlicingParams where
  layerHeight : ℚ
  contourTol : ℚ
  zigzag : Bool
  closeLoops : Bool
  topDown : Option Bool := none
deriving DecidableEq

/-- Source `MachineParams`. -/
structure MachineParams where
  zSafe : ℚ
  leadIn : ℚ
  feedXY : ℚ
  feedZ : ℚ
  xyMargin : Option ℚ := none
  zBed : Option ℚ := none
  zGap : Option ℚ := none
  snapBottomToBed : Option Bool := none
deriving DecidableEq

/-- Source `GCodeParams`; `commentPfx` is the source's comment-prefix field. -/
structure GCodeParams where
  unitsMm : Bool
  absolute : Bool
  spindleOn : Bool
  spindleRpm : ℚ
  zSafe : ℚ
  programName : String
  commentPfx : String
  precision : ℕ
deriving DecidableEq

inductive MoveType where
  | G0
  | G1
deriving DecidableEq

/-- A motion primitive, `Move` in the source. -/
structure Move where
  type : MoveType
  x : Option ℚ := none
  y : Option ℚ := none
  z : Option ℚ := none
  feed : Option ℚ := none
deriving DecidableEq

structure Polyline where
  points : List V3
deriving DecidableEq

structure Layer where
  z : ℚ
  polylines : List Polyline
deriving DecidableEq

/-- An STL facet record: three vertices plus the stored normal. -/
structure Triangle where
  v1 : V3
  v2 : V3
  v3 : V3
  normal : V3
deriving DecidableEq

/-! ## stl-to-gcode.ts — binary STL parser (`parseSTL`) -/

def byteAt (bytes : List ℕ) (i : ℕ) : ℕ := bytes.getD i 0

/-- Source `DataView.getUint32(off, true)` including the `DataView` range check
(an out-of-range read throws a `RangeError` in JS). -/
def getU32 (bytes : List ℕ) (off : ℕ) : Except String ℕ :=
  if off + 4 ≤ bytes.length then
    .ok (byteAt bytes off + 256 * (byteAt bytes (off + 1) +
      256 * (byteAt bytes (off + 2) + 256 * byteAt bytes (off + 3))))
  else .error "RangeError"

/-- Source `DataView.getFloat32(off, true)` including the range check; the decode
itself is the `f32` parameter. -/
def getF32 (f32 : F32) (bytes : List ℕ) (off : ℕ) : Except String ℚ :=
  if off + 4 ≤ bytes.length then
    .ok (f32 (byteAt bytes off) (byteAt bytes (off + 1)) (byteAt bytes (off + 2))
      (byteAt bytes (off + 3)))
  else .error "RangeError"

def readV3 (f32 : F32) (bytes : List ℕ) (off : ℕ) : Except String V3 := do
  let x ← getF32 f32 bytes off
  let y ← getF32 f32 bytes (off + 4)
  let z ← getF32 f32 bytes (off + 8)
  pure ⟨x, y, z⟩

/-- The per-triangle read loop of `parseSTL` (stl-to-gcode.ts, lines 54-81):
normal, three vertices, then skip the 2-byte attribute count (not read). -/
def parseTris (f32 : F32) (bytes : List ℕ) : ℕ → ℕ → Except String (List Triangle)
  | _, 0 => .ok []
  | off, n + 1 => do
    let nrm ← readV3 f32 bytes off
    let a ← readV3 f32 bytes (off + 12)
    let b ← readV3 f32 bytes (off + 24)
    let c ← readV3 f32 bytes (off + 36)
    let rest ← parseTris f32 bytes (off + 50) (n)
    pure (⟨a, b, c, nrm⟩ :: rest)

/-- Binary STL parser of the G-code pipeline (`parseSTL`, stl-to-gcode.ts).
Note: it performs no explicit length check; the only failures are the
`DataView` range errors surfaced by the reads themselves. -/
def parseSTLg (f32 : F32) (bytes : List ℕ) : Except String (List Triangle) := do
  let n ← getU32 bytes 80
  parseTris f32 bytes 84 n

/-! ## stl-to-gcode.ts — rotation and bounds -/

/-- Source `rotateVertex`: Euler X → Y → Z rotation. -/
def rotateVertex (P : Prims) (v : V3) (rot : ModelRotation) : V3 :=
  let cosx := P.cos rot.x
  let sinx := P.sin rot.x
  let y1 := v.y * cosx - v.z * sinx
  let z1 := v.y * sinx + v.z * cosx
  let cosy := P.cos rot.y
  let siny := P.sin rot.y
  let x2 := v.x * cosy + z1 * siny
  let z2 := -v.x * siny + z1 * cosy
  let cosz := P.cos rot.z
  let sinz := P.sin rot.z
  let x3 := x2 * cosz - y1 * sinz
  let y3 := x2 * sinz + y1 * cosz
  ⟨x3, y3, z2⟩

/-- Source `applyRotation` (stl-to-gcode.ts): rotates vertices and normals;
identity when all angles are 0. -/
def applyRotationG (P : Prims) (tris : List Triangle) (rot : ModelRotation) : List Triangle :=
  if rot.x = 0 ∧ rot.y = 0 ∧ rot.z = 0 then tris
  else tris.map fun t =>
    ⟨rotateVertex P t.v1 rot, rotateVertex P t.v2 rot, rotateVertex P t.v3 rot,
     rotateVertex P t.normal rot⟩

structure BoundsG where
  min : V3
  max : V3
deriving DecidableEq

/-- Source `getMeshBounds`.  The source folds min/max starting from `±Infinity`;
on a nonempty mesh this equals folding from the first vertex, which is how
it is modeled here (no claim concerns the empty mesh, where the source
would propagate infinities into the result). -/
def getMeshBounds (tris : List Triangle) : BoundsG :=
  let verts := tris.flatMap fun t => [t.v1, t.v2, t.v3]
  match verts with
  | [] => ⟨⟨0, 0, 0⟩, ⟨0, 0, 0⟩⟩
  | v :: rest =>
    rest.foldl (fun (bnd : BoundsG) w =>
      ⟨⟨min bnd.min.x w.x, min bnd.min.y w.y, min bnd.min.z w.z⟩,
       ⟨max bnd.max.x w.x, max bnd.max.y w.y, max bnd.max.z w.z⟩⟩) ⟨v, v⟩

/-! ## stl-to-gcode.ts — slicer -/

/-- Source `computeLayers` (stl-to-gcode.ts, lines 138-143):
`n = Math.max(1, Math.ceil((zMax−zMin)/layerHeight))`, planes
`zMin + i·layerHeight` for `i = 0..n`, reversed when `topDown`.
(A negative `Math.ceil` result still yields `n = 1` via `Math.max`,
matching `Int.toNat` of a negative integer.) -/
def computeLayers (zMin zMax layerHeight : ℚ) (topDown : Bool) : List ℚ :=
  let n : ℕ := Nat.max 1 (jceil ((zMax - zMin) / layerHeight)).toNat
  let layers := (List.range (n + 1)).map fun i : ℕ => zMin + (i : ℚ) * layerHeight
  if topDown then layers.reverse else layers

/-- Source `intersectTriangleWithPlane`: each edge straddling the plane (inclusive)
contributes one interpolated point; edges with `|Δz| < 1e-10` are skipped. -/
def intersectTriangleWithPlane (tri : Triangle) (z : ℚ) : List V3 :=
  let vertices := [tri.v1, tri.v2, tri.v3]
  (List.range 3).filterMap fun i =>
    let p1 := vertices.getD i default
    let p2 := vertices.getD ((i + 1) % 3) default
    if (p1.z ≤ z ∧ p2.z ≥ z) ∨ (p1.z ≥ z ∧ p2.z ≤ z) then
      if |p2.z - p1.z| < 1 / 10000000000 then none
      else
        let t := (z - p1.z) / (p2.z - p1.z)
        some ⟨p1.x + t * (p2.x - p1.x), p1.y + t * (p2.y - p1.y), z⟩
    else none

/-- A slice segment: the two intersection points of a triangle. -/
abbrev Seg := V3 × V3

/-- Inner candidate scan of the stitching loop (`sliceAtZ`, lines 184-194):
find the first unused segment with an endpoint within `tol` (2D) of `last`,
mark it used, and return the opposite endpoint. -/
def findExt (P : Prims) (tol : ℚ) (last : V3) :
    List (Bool × Seg) → Option (V3 × List (Bool × Seg))
  | [] => none
  | (used, s) :: rest =>
    if used then
      match findExt P tol last rest with
      | none => none
      | some (p, rest') => some (p, (used, s) :: rest')
    else
      let d1 := P.sqrt ((last.x - s.1.x) ^ 2 + (last.y - s.1.y) ^ 2)
      let d2 := P.sqrt ((last.x - s.2.x) ^ 2 + (last.y - s.2.y) ^ 2)
      if d1 < tol then some (s.2, (true, s) :: rest)
      else if d2 < tol then some (s.1, (true, s) :: rest)
      else
        match findExt P tol last rest with
        | none => none
        | some (p, rest') => some (p, (used, s) :: rest')

/-- The `while (extended)` chaining loop.  Each successful extension marks
one previously-unused segment used, so the loop runs at most
(#unused segments) times; `fuel` is initialized one above that bound and
therefore never reaches 0 (the 0 branch is unreachable). -/
def chainAux (P : Prims) (tol : ℚ) : ℕ → List V3 → List (Bool × Seg) →
    List V3 × List (Bool × Seg)
  | 0, poly, segs => (poly, segs)
  | fuel + 1, poly, segs =>
    match findExt P tol (poly.getLastD default) segs with
    | none => (poly, segs)
    | some (p, segs') => chainAux P tol fuel (poly ++ [p]) segs'

def unusedCount (segs : List (Bool × Seg)) : ℕ := segs.countP fun bs => !bs.1

def chain (P : Prims) (tol : ℚ) (poly : List V3) (segs : List (Bool × Seg)) :
    List V3 × List (Bool × Seg) :=
  chainAux P tol (unusedCount segs + 1) poly segs

def markUsed (i : ℕ) (segs : List (Bool × Seg)) : List (Bool × Seg) :=
  match segs.get? i with
  | some (_, s) => segs.set i (true, s)
  | none => segs

/-- One step of the outer `for (i...)` loop of `sliceAtZ`: skip used
segments, otherwise start a polyline from segment `i` and chain. -/
def sliceOuterStep (P : Prims) (tol : ℚ)
    (st : List (Bool × Seg) × List (List V3)) (i : ℕ) :
    List (Bool × Seg) × List (List V3) :=
  let (segs, acc) := st
  match segs.get? i with
  | none => st
  | some (used, s) =>
    if used then st
    else
      let (poly, segs') := chain P tol [s.1, s.2] (markUsed i segs)
      (segs', acc ++ [poly])

/-- Source `sliceAtZ`: collect the 2-point triangle/plane intersections as
segments, then greedily stitch them into polylines. -/
def sliceAtZ (P : Prims) (tris : List Triangle) (z : ℚ) (tol : ℚ) : List Polyline :=
  let segments : List Seg := tris.filterMap fun tri =>
    match intersectTriangleWithPlane tri z with
    | [p, q] => some (p, q)
    | _ => none
  if segments = [] then []
  else
    let init : List (Bool × Seg) := segments.map fun s => (false, s)
    let res := (List.range segments.length).foldl (sliceOuterStep P tol) (init, [])
    res.2.map fun pts => ⟨pts⟩

/-- The `closeLoops` fixup of `sliceMesh`: append a copy of the first point
when first and last are farther than 1e-6 apart (2D distance). -/
def closeLoopsFix (P : Prims) (poly : Polyline) : Polyline :=
  let points := poly.points
  if 2 ≤ points.length then
    let first := points.headD default
    let lst := points.getLastD default
    let dist := P.sqrt ((first.x - lst.x) ^ 2 + (first.y - lst.y) ^ 2)
    if dist > 1 / 1000000 then ⟨points ++ [first]⟩ else ⟨points⟩
  else ⟨points⟩

/-- Source `sliceMesh`: slice at every plane of `computeLayers`, apply the
close-loop and zigzag fixups, and keep only nonempty layers. -/
def sliceMesh (P : Prims) (tris : List Triangle) (sp : SlicingParams) : List Layer :=
  let bounds := getMeshBounds tris
  let zs := computeLayers bounds.min.z bounds.max.z sp.layerHeight (sp.topDown.getD true)
  zs.enum.filterMap fun iz =>
    let i := iz.1
    let z := iz.2
    let polylines := sliceAtZ P tris z sp.contourTol
    let polylines := if sp.closeLoops then polylines.map (closeLoopsFix P) else polylines
    let polylines :=
      if sp.zigzag ∧ i % 2 = 1 then polylines.map fun p => ⟨p.points.reverse⟩
      else polylines
    if polylines = [] then none else some ⟨z, polylines⟩

/-! ## stl-to-gcode.ts — toolpath builder and emitter -/

/-- Moves for one polyline (`buildMoves` body): rapid approach, plunge at
`feedZ`, optional lead-in, contour cut at `feedXY`, rapid retract. -/
def polyMoves (P : Prims) (mp : MachineParams) (layerZ : ℚ) (poly : Polyline) : List Move :=
  match poly.points with
  | [] => []
  | start :: _ =>
    let approach : List Move :=
      [⟨.G0, some start.x, some start.y, some mp.zSafe, none⟩,
       ⟨.G1, some start.x, some start.y, some layerZ, some mp.feedZ⟩]
    let leadin : List Move :=
      if mp.leadIn > 0 ∧ 2 ≤ poly.points.length then
        let p2 := poly.points.getD 1 default
        let dx := p2.x - start.x
        let dy := p2.y - start.y
        let len0 := P.sqrt (dx ^ 2 + dy ^ 2)
        let len := if len0 = 0 then 1 else len0
        let li := min mp.leadIn (len * (1/2))
        [⟨.G1, some (start.x + dx / len * li), some (start.y + dy / len * li),
          some layerZ, some mp.feedXY⟩]
      else []
    let cuts := poly.points.tail.map fun pt =>
      (⟨.G1, some pt.x, some pt.y, some layerZ, some mp.feedXY⟩ : Move)
    let lastPt := poly.points.getLastD default
    approach ++ leadin ++ cuts ++ [⟨.G0, some lastPt.x, some lastPt.y, some mp.zSafe, none⟩]

def buildMoves (P : Prims) (layers : List Layer) (mp : MachineParams) : List Move :=
  layers.flatMap fun layer => layer.polylines.flatMap (polyMoves P mp layer.z)

def padLeftZeros (s : String) (len : ℕ) : String :=
  if s.length < len then String.mk (List.replicate (len - s.length) '0') ++ s else s

/-- Source `Number.prototype.toFixed(p)` on an exact rational: round `|x|` to `p`
decimal places (ties away from zero, as ECMA rounds the magnitude up) and
re-attach the sign. -/
def toFixed (x : ℚ) (p : ℕ) : String :=
  let n : ℕ := (⌊|x| * (10 : ℚ) ^ p + 1/2⌋).toNat
  let s := padLeftZeros (Nat.repr n) (p + 1)
  let body :=
    if p = 0 then s
    else s.take (s.length - p) ++ "." ++ s.drop (s.length - p)
  (if x < 0 then "-" else "") ++ body

/-- Source `fmtNum` (stl-to-gcode.ts, lines 267-270), including its negative-zero
snapping branch (which textually yields `"0" + s.slice(1)`). -/
def fmtNum (x : ℚ) (precision : ℕ) : String :=
  let s := toFixed x precision
  if s.startsWith "-0." ∧ |x| < (1/2) * ((10 : ℚ) ^ precision)⁻¹ then "0" ++ s.drop 1
  else s

def moveTypeStr : MoveType → String
  | .G0 => "G0"
  | .G1 => "G1"

/-- The modal emitter state: `currentMode` and `currentFeed`. -/
structure EmitState where
  mode : Option MoveType
  feed : Option ℚ
deriving DecidableEq

/-- Token emission for one move (`generateGCode` body, lines 285-298):
motion word only on change, axis words when present, feed word only on `G1`
moves whose feed differs from the last emitted feed by more than 1e-9
(or when no feed was emitted yet). -/
def emitMoveTokens (prec : ℕ) (st : EmitState) (m : Move) : List String × EmitState :=
  let tks : List String := if st.mode = some m.type then [] else [moveTypeStr m.type]
  let tks := tks ++ (match m.x with | some v => ["X" ++ fmtNum v prec] | none => [])
  let tks := tks ++ (match m.y with | some v => ["Y" ++ fmtNum v prec] | none => [])
  let tks := tks ++ (match m.z with | some v => ["Z" ++ fmtNum v prec] | none => [])
  let fd : List String × Option ℚ :=
    match m.type, m.feed with
    | .G1, some f =>
      match st.feed with
      | none => (["F" ++ fmtNum f 0], some f)
      | some cf => if |f - cf| > 1 / 1000000000 then (["F" ++ fmtNum f 0], some f) else ([], st.feed)
    | _, _ => ([], st.feed)
  (tks ++ fd.1, ⟨some m.type, fd.2⟩)

/-- The body loop of `generateGCode`: emit each move's tokens, drop empty
token lines, thread the modal state. -/
def emitBodySt (prec : ℕ) : EmitState → List Move → List (List String) × EmitState
  | st, [] => ([], st)
  | st, m :: rest =>
    let r := emitMoveTokens prec st m
    let rec' := emitBodySt prec r.2 rest
    (if r.1 = [] then rec'.1 else r.1 :: rec'.1, rec'.2)

/-- Source `generateGCode`: header, modal body, footer. -/
def generateGCode (P : Prims) (moves : List Move) (params : GCodeParams) : List String :=
  let header :=
    [params.commentPfx ++ "Program: " ++ params.programName,
     params.commentPfx ++ "Generated by G-coder",
     (if params.unitsMm then "G21" else "G20"),
     (if params.absolute then "G90" else "G91"),
     "G17",
     "G0 Z" ++ fmtNum params.zSafe params.precision] ++
    (if params.spindleOn then ["M3 S" ++ P.numStr params.spindleRpm] else [])
  let body := (emitBodySt params.precision ⟨none, none⟩ moves).1.map (String.intercalate " ")
  let footer :=
    ["G0 Z" ++ fmtNum params.zSafe params.precision] ++
    (if params.spindleOn then ["M5"] else []) ++ ["M30"]
  header ++ body ++ footer

structure GenResult where
  gcode : String
  lines : ℕ
  layers : ℕ
deriving DecidableEq

/-- The centered-rotation step of `generateGCodeFromSTL` (lines 355-367). -/
def rotatedTrisOf (P : Prims) (tris0 : List Triangle) (rotation : ModelRotation) :
    List Triangle :=
  if rotation.x ≠ 0 ∨ rotation.y ≠ 0 ∨ rotation.z ≠ 0 then
    let bounds := getMeshBounds tris0
    let cx := (bounds.min.x + bounds.max.x) / 2
    let cy := (bounds.min.y + bounds.max.y) / 2
    let cz := (bounds.min.z + bounds.max.z) / 2
    let centered := tris0.map fun t =>
      (⟨⟨t.v1.x - cx, t.v1.y - cy, t.v1.z - cz⟩,
        ⟨t.v2.x - cx, t.v2.y - cy, t.v2.z - cz⟩,
        ⟨t.v3.x - cx, t.v3.y - cy, t.v3.z - cz⟩, t.normal⟩ : Triangle)
    applyRotationG P centered rotation
  else tris0

/-- The bed-snapping lift `zLift = snap ? max(0, (zBed+zGap) − minZ) : 0`
(lines 378-382). -/
def zLiftOf (mp : MachineParams) (minZ : ℚ) : ℚ :=
  if mp.snapBottomToBed.getD true then
    max 0 ((mp.zBed.getD 0 + mp.zGap.getD 0) - minZ)
  else 0

/-- The final translation applied to every move (lines 389-394). -/
def shiftMove (tx ty tz : ℚ) (m : Move) : Move :=
  { m with x := m.x.map (· + tx), y := m.y.map (· + ty), z := m.z.map (· + tz) }

/-- Source `generateGCodeFromSTL`.  The partial-parameter merging with defaults
(source lines 316-350) is configuration plumbing; this function receives
the merged records, whose still-optional fields go through the same `??`
fallbacks as the source. -/
def generateGCodeFromSTL (P : Prims) (f32 : F32) (bytes : List ℕ)
    (rotation : ModelRotation) (sp : SlicingParams) (mp : MachineParams)
    (gcp : GCodeParams) : Except String GenResult := do
  let tris0 ← parseSTLg f32 bytes
  let triangles := rotatedTrisOf P tris0 rotation
  let finalBounds := getMeshBounds triangles
  let margin := mp.xyMargin.getD 0
  let translateX := -finalBounds.min.x + margin
  let translateY := -finalBounds.min.y + margin
  let zLift := zLiftOf mp finalBounds.min.z
  let layers := sliceMesh P triangles sp
  let moves := buildMoves P layers mp
  let translatedMoves := moves.map (shiftMove translateX translateY zLift)
  let gcpWithLift := { gcp with zSafe := gcp.zSafe + zLift }
  let gcodeLines := generateGCode P translatedMoves gcpWithLift
  pure ⟨String.intercalate "\n" gcodeLines, gcodeLines.length, layers.length⟩

/-- Whether an emitted token is a feed word (starts with `F`; the mode and
axis tokens start with `G`, `X`, `Y`, `Z` and numeric text never starts
with `F`). -/
def isFeedTok (tk : String) : Bool := tk.data.head? = some 'F'

/-- Number of feed words across a list of emitted token lines. -/
def feedWordCount (lns : List (List String)) : ℕ :=
  (lns.map fun tks => tks.countP isFeedTok).sum

/-- The emitter's modal suppression test: the candidate feed is within
1e-9 of the last emitted feed (`false` when no feed was emitted yet). -/
def feedClose (cf : Option ℚ) (f : ℚ) : Bool :=
  match cf with
  | none => false
  | some g => |f - g| ≤ 1 / 1000000000

/-! ## convexity.ts — data model -/

/-- A triangle as an ordered triple of vertex indices.  The source stores
cells as JS arrays; every cell constructed by this module is a 3-element
index array, so cells are modeled as triples (the `c.length !== 3` guards
of the source are vacuously true for them). -/
abbrev Cell := ℕ × ℕ × ℕ

structure MachinabilityResult where
  isThreeAxisMachable : Bool
  accessibilityScore : ℚ
  topFaceDownRatio : ℚ
  undercutRatio : ℚ
  overhangRatio : ℚ
  baseFlatRatio : ℚ
  samples : ℕ
  details : String
  failureReason : Option String := none
  warnings : Option (List String) := none
deriving DecidableEq

structure ConvexityAnalysis where
  isConvex : Bool
  meshVolume : ℚ
  hullVolume : ℚ
  convexityRatio : ℚ
  confidence : ℚ
  machinability : MachinabilityResult
  error : Option String := none
  details : Option String := none
deriving DecidableEq

structure ConvexityOptions where
  tolerance : Option ℚ := none
  badGap : Option ℚ := none
  eps : Option ℚ := none
  grid : Option ℚ := none
  maxUpAngleDeg : Option ℚ := none
  zEps : Option ℚ := none
deriving DecidableEq

/-! ## convexity.ts — numeric and geometric utilities -/

structure BBoxC where
  bmin : V3
  bmax : V3
  dx : ℚ
  dy : ℚ
  dz : ℚ
  diag : ℚ
deriving DecidableEq

/-- Source `bbox` (convexity.ts).  The source folds from `±Infinity` and skips
non-finite points (vacuous over `ℚ`); on a nonempty list this equals
folding from the first point.  For the empty list the source's
`−∞` extents make every thinness test true; the zero extents used here do
the same, so the observable control flow agrees. -/
def bboxC (P : Prims) (points : List V3) : BBoxC :=
  match points with
  | [] => ⟨⟨0, 0, 0⟩, ⟨0, 0, 0⟩, 0, 0, 0, 0⟩
  | p :: rest =>
    let mn := rest.foldl (fun (m : V3) q => ⟨min m.x q.x, min m.y q.y, min m.z q.z⟩) p
    let mx := rest.foldl (fun (m : V3) q => ⟨max m.x q.x, max m.y q.y, max m.z q.z⟩) p
    let dx := mx.x - mn.x
    let dy := mx.y - mn.y
    let dz := mx.z - mn.z
    ⟨mn, mx, dx, dy, dz, P.sqrt (dx ^ 2 + dy ^ 2 + dz ^ 2)⟩

/-- Source `isThinBBox`: at least one bounding-box extent below `lenEps`. -/
def isThinBBox (dx dy dz lenEps : ℚ) : Bool :=
  ((if dx < lenEps then 1 else 0) + (if dy < lenEps then 1 else 0) +
    (if dz < lenEps then 1 else 0) : ℕ) ≥ 1

/-- Source `confidenceFromRatio`. -/
def confidenceFromRatio (ratio badGap : ℚ) : ℚ :=
  let gap := max 0 (1 - ratio)
  -- the `!Number.isFinite(ratio)` early return is vacuous over ℚ
  if badGap ≤ 0 then (if ratio ≥ 1 then 100 else 0)
  else
    let c : ℚ := (jround (100 * max 0 (1 - gap / badGap)) : ℤ)
    min 100 (max 0 c)

def clamp01 (x : ℚ) : ℚ := if x < 0 then 0 else if x > 1 then 1 else x

/-- Source `toRadiansMaybe`: treat large angles as degrees. -/
def toRadiansMaybe (rot : ModelRotation) : ModelRotation :=
  let m := max (max |rot.x| |rot.y|) |rot.z|
  if m > piQ * 2 + 1 / 1000000 then
    ⟨rot.x * (piQ / 180), rot.y * (piQ / 180), rot.z * (piQ / 180)⟩
  else rot

/-- Source `applyRotation` (convexity.ts): Euler X → Y → Z on a point list. -/
def applyRotation (P : Prims) (positions : List V3) (rotation : ModelRotation) : List V3 :=
  let sinX := P.sin rotation.x
  let cosX := P.cos rotation.x
  let sinY := P.sin rotation.y
  let cosY := P.cos rotation.y
  let sinZ := P.sin rotation.z
  let cosZ := P.cos rotation.z
  positions.map fun p =>
    let y1 := p.y * cosX - p.z * sinX
    let z1 := p.y * sinX + p.z * cosX
    let x2 := p.x * cosY + z1 * sinY
    let z2 := -p.x * sinY + z1 * cosY
    let x3 := x2 * cosZ - y1 * sinZ
    let y3 := x2 * sinZ + y1 * cosZ
    ⟨x3, y3, z2⟩

/-- Source `meshVolume`: divergence-theorem signed volume.  Cells with
out-of-range vertex indices are skipped (`if (!v0 || ...) continue`). -/
def meshVolume (cells : List Cell) (positions : List V3) : ℚ :=
  (cells.foldl (fun V c =>
    match positions.get? c.1, positions.get? c.2.1, positions.get? c.2.2 with
    | some v0, some v1, some v2 =>
      let e1 := (⟨v1.x - v0.x, v1.y - v0.y, v1.z - v0.z⟩ : V3)
      let e2 := (⟨v2.x - v0.x, v2.y - v0.y, v2.z - v0.z⟩ : V3)
      let cx := e1.y * e2.z - e1.z * e2.y
      let cy := e1.z * e2.x - e1.x * e2.z
      let cz := e1.x * e2.y - e1.y * e2.x
      V + (v0.x * cx + v0.y * cy + v0.z * cz)
    | _, _, _ => V) 0) / 6

/-! ## convexity.ts — STL parser -/

def readF32at (f32 : F32) (bytes : List ℕ) (off : ℕ) : ℚ :=
  f32 (byteAt bytes off) (byteAt bytes (off + 1)) (byteAt bytes (off + 2)) (byteAt bytes (off + 3))

/-- Source `buf.readUInt32LE(80)`; in `parseBinarySTL` this read is always
in-bounds because of the preceding length guard. -/
def readU32at (bytes : List ℕ) (off : ℕ) : ℕ :=
  byteAt bytes off + 256 * (byteAt bytes (off + 1) +
    256 * (byteAt bytes (off + 2) + 256 * byteAt bytes (off + 3)))

/-- The vertex-reading loop of `parseBinarySTL` (the 12 normal bytes are
skipped; reads are in-bounds after the guard). -/
def binTris (f32 : F32) (bytes : List ℕ) : ℕ → ℕ → List (V3 × V3 × V3)
  | _, 0 => []
  | off, n + 1 =>
    (⟨readF32at f32 bytes (off + 12), readF32at f32 bytes (off + 16), readF32at f32 bytes (off + 20)⟩,
     ⟨readF32at f32 bytes (off + 24), readF32at f32 bytes (off + 28), readF32at f32 bytes (off + 32)⟩,
     ⟨readF32at f32 bytes (off + 36), readF32at f32 bytes (off + 40), readF32at f32 bytes (off + 44)⟩) ::
    binTris f32 bytes (off + 50) (n)

/-- Source `parseBinarySTL` (convexity.ts, lines 148-163), with its two explicit
length guards. -/
def parseBinarySTL (f32 : F32) (bytes : List ℕ) : Except String (List (V3 × V3 × V3)) :=
  if bytes.length < 84 then .error "STL binario demasiado corto."
  else
    let triCount := readU32at bytes 80
    if bytes.length < 84 + triCount * 50 then .error "STL binario truncado."
    else .ok (binTris f32 bytes 84 triCount)

def toLowerByte (b : ℕ) : ℕ := if 65 ≤ b ∧ b ≤ 90 then b + 32 else b

/-- Source `/^solid/i` on the decoded 80-byte header: the first five bytes spell
"solid" case-insensitively. -/
def startsWithSolid (bytes : List ℕ) : Bool :=
  (bytes.take 5).map toLowerByte = [115, 111, 108, 105, 100]

def listHasSub (needle : List ℕ) : List ℕ → Bool
  | [] => needle.isEmpty
  | b :: rest => needle.isPrefixOf (b :: rest) || listHasSub needle rest

/-- Source `buf.toString("utf8").includes("facet")`: ASCII substring presence is
preserved by UTF-8 decoding, so it is checked on the raw bytes. -/
def containsFacet (bytes : List ℕ) : Bool := listHasSub [102, 97, 99, 101, 116] bytes

def asciiDetect (bytes : List ℕ) : Bool := startsWithSolid bytes && containsFacet bytes

/-- Flatten a triangle list to the `positions`/`cells` output of `parseSTL`
(three fresh vertices and one index cell per triangle). -/
def expandTris (tris : List (V3 × V3 × V3)) : List V3 × List Cell :=
  (tris.flatMap fun t => [t.1, t.2.1, t.2.2],
   (List.range tris.length).map fun i => (3 * i, 3 * i + 1, 3 * i + 2))

/-- Source `parseSTL` (convexity.ts): ASCII dispatch, else binary.  The ASCII
regex/float parsing (`parseAsciiSTL`) extracts decimal floats from text;
like the float32 decode it is passed as a parameter. -/
def parseSTLc (f32 : F32) (asciiParse : List ℕ → Except String (List (V3 × V3 × V3)))
    (bytes : List ℕ) : Except String (List V3 × List Cell) := do
  let tris ← if asciiDetect bytes then asciiParse bytes else parseBinarySTL f32 bytes
  pure (expandTris tris)

/-! ## convexity.ts — sanitize, weld, orientation -/

/-- Source `sanitizeMesh`: drop degenerate triangles (doubled area ≤ 1e-12) and
unreferenced vertices, remapping indices in order.  The finiteness checks
are vacuous over ℚ; cells with out-of-range indices cannot occur in the
pipeline (the parser emits only valid indices). -/
def sanitizeMesh (P : Prims) (positionsIn : List V3) (cellsIn : List Cell) :
    List V3 × List Cell :=
  let cellsOut := cellsIn.filter fun c =>
    match positionsIn.get? c.1, positionsIn.get? c.2.1, positionsIn.get? c.2.2 with
    | some a, some b, some d =>
      let e1 := (⟨b.x - a.x, b.y - a.y, b.z - a.z⟩ : V3)
      let e2 := (⟨d.x - a.x, d.y - a.y, d.z - a.z⟩ : V3)
      let cx := e1.y * e2.z - e1.z * e2.y
      let cy := e1.z * e2.x - e1.x * e2.z
      let cz := e1.x * e2.y - e1.y * e2.x
      decide (P.sqrt (cx ^ 2 + cy ^ 2 + cz ^ 2) > 1 / 1000000000000)
    | _, _, _ => false
  let keepIdx : ℕ → Bool := fun i => cellsOut.any fun c => c.1 = i || c.2.1 = i || c.2.2 = i
  let keptIdx := (List.range positionsIn.length).filter keepIdx
  let posOut := keptIdx.filterMap fun i => positionsIn.get? i
  let idx : ℕ → ℕ := fun i => (keptIdx.findIdx? (fun j => j = i)).getD 0
  (posOut, cellsOut.map fun c => (idx c.1, idx c.2.1, idx c.2.2))

/-- The weld key: the vertex quantized to the grid `1/max(eps,1e-12)`.
The source builds the string "a|b|c" from these three integers; the
integer triple is the same data. -/
abbrev WKey := ℤ × ℤ × ℤ

def weldKey (eps : ℚ) (p : V3) : WKey :=
  let k := 1 / max eps (1 / 1000000000000)
  (jround (p.x * k), jround (p.y * k), jround (p.z * k))

/-- First-match association lookup (JS `Map.get`; keys are unique by
construction, so first match is the match). -/
def alookup {β : Type} (key : WKey) : List (WKey × β) → Option β
  | [] => none
  | (k, v) :: rest => if k = key then some v else alookup key rest

/-- The vertex pass of `weldMesh`: assign each vertex the index of the
first vertex sharing its key, building `posOut` and `remap` in order. -/
def weldVertsAux (eps : ℚ) :
    List V3 → List (WKey × ℕ) → List V3 → List ℕ → List V3 × List ℕ
  | [], _, posOut, remap => (posOut, remap)
  | p :: rest, map, posOut, remap =>
    match alookup (weldKey eps p) map with
    | some idx => weldVertsAux eps rest map posOut (remap ++ [idx])
    | none =>
      weldVertsAux eps rest (map ++ [(weldKey eps p, posOut.length)])
        (posOut ++ [p]) (remap ++ [posOut.length])

def weldVerts (eps : ℚ) (positions : List V3) : List V3 × List ℕ :=
  weldVertsAux eps positions [] [] []

/-- Source `weldMesh` (convexity.ts, lines 234-256).  Cells that become degenerate
after remapping are dropped.  (A cell referencing a vertex beyond
`positions.length` would propagate `undefined` in JS; such cells never
occur in the pipeline and are modeled as dropped.) -/
def weldMesh (positions : List V3) (cells : List Cell) (eps : ℚ) : List V3 × List Cell :=
  let vr := weldVerts eps positions
  let cellsOut := cells.filterMap fun c =>
    match vr.2.get? c.1, vr.2.get? c.2.1, vr.2.get? c.2.2 with
    | some i, some j, some k2 =>
      if i = j ∨ j = k2 ∨ i = k2 then none else some (i, j, k2)
    | _, _, _ => none
  (vr.1, cellsOut)

/-- Source `centroid`: unweighted vertex average (denominator `length || 1`). -/
def centroid (positions : List V3) : V3 :=
  let n : ℚ := if positions.length = 0 then 1 else positions.length
  ⟨positions.foldl (fun s p => s + p.x) 0 / n,
   positions.foldl (fun s p => s + p.y) 0 / n,
   positions.foldl (fun s p => s + p.z) 0 / n⟩

/-- Source `triNormal`: normalized edge cross product (`Math.hypot(...) || 1`). -/
def triNormal (P : Prims) (p0 p1 p2 : V3) : V3 :=
  let ux := p1.x - p0.x
  let uy := p1.y - p0.y
  let uz := p1.z - p0.z
  let vx := p2.x - p0.x
  let vy := p2.y - p0.y
  let vz := p2.z - p0.z
  let nx := uy * vz - uz * vy
  let ny := uz * vx - ux * vz
  let nz := ux * vy - uy * vx
  let len0 := P.sqrt (nx ^ 2 + ny ^ 2 + nz ^ 2)
  let len := if len0 = 0 then 1 else len0
  ⟨nx / len, ny / len, nz / len⟩

/-- Source `orientFacesOutward`: flip winding when the face normal points toward
the mesh centroid (indices are valid throughout the pipeline). -/
def orientFacesOutward (P : Prims) (positions : List V3) (cells : List Cell) : List Cell :=
  let c := centroid positions
  cells.map fun cell =>
    let p0 := positions.getD cell.1 default
    let p1 := positions.getD cell.2.1 default
    let p2 := positions.getD cell.2.2 default
    let n := triNormal P p0 p1 p2
    let ct := (⟨(p0.x + p1.x + p2.x) / 3, (p0.y + p1.y + p2.y) / 3, (p0.z + p1.z + p2.z) / 3⟩ : V3)
    let dot := n.x * (ct.x - c.x) + n.y * (ct.y - c.y) + n.z * (ct.z - c.z)
    if dot ≥ 0 then cell else (cell.1, cell.2.2, cell.2.1)

/-! ## convexity.ts — edge statistics -/

structure EdgeEntry where
  n1 : V3
  n2 : Option V3
  count : ℕ
  mid : V3
deriving DecidableEq

structure EdgeStats where
  concaveRatio : ℚ
  boundaryRatio : ℚ
  watertight : Bool
  edgeCount : ℕ
deriving DecidableEq

/-- Unordered edge key (`a < b ? a|b : b|a`). -/
def ekey (a b : ℕ) : ℕ × ℕ := if a < b then (a, b) else (b, a)

/-- In-place association update preserving insertion order (JS `Map.set`). -/
def updateAssoc (key : ℕ × ℕ) (f : Option EdgeEntry → EdgeEntry) :
    List ((ℕ × ℕ) × EdgeEntry) → List ((ℕ × ℕ) × EdgeEntry)
  | [] => [(key, f none)]
  | (k, e) :: rest =>
    if k = key then (k, f (some e)) :: rest else (k, e) :: updateAssoc key f rest

/-- The edge-map construction loop of `buildEdgeStats`. -/
def edgeMapOf (P : Prims) (positions : List V3) (cells : List Cell) :
    List ((ℕ × ℕ) × EdgeEntry) :=
  cells.foldl (fun map cell =>
    let p0 := positions.getD cell.1 default
    let p1 := positions.getD cell.2.1 default
    let p2 := positions.getD cell.2.2 default
    let n := triNormal P p0 p1 p2
    let edges : List (ℕ × ℕ × V3 × V3) :=
      [(cell.1, cell.2.1, p0, p1), (cell.2.1, cell.2.2, p1, p2), (cell.2.2, cell.1, p2, p0)]
    edges.foldl (fun map e =>
      let K := ekey e.1 e.2.1
      let pa := e.2.2.1
      let pb := e.2.2.2
      let mid := (⟨(pa.x + pb.x) / 2, (pa.y + pb.y) / 2, (pa.z + pb.z) / 2⟩ : V3)
      updateAssoc K (fun old =>
        match old with
        | none => ⟨n, none, 1, mid⟩
        | some en =>
          ⟨en.n1, (if en.n2.isNone then some n else en.n2), Nat.min 2 (en.count + 1), en.mid⟩) map)
      map) []

/-- Source `buildEdgeStats`: classify edges as boundary / paired / concave. -/
def buildEdgeStats (P : Prims) (positions : List V3) (cells : List Cell) : EdgeStats :=
  let map := edgeMapOf P positions cells
  let c := centroid positions
  let angMin := P.cos (5 * piQ / 180)
  let counted := map.foldl (fun (acc : ℕ × ℕ × ℕ) kv =>
    let e := kv.2
    if e.count = 1 then (acc.1 + 1, acc.2.1, acc.2.2)
    else
      match e.n2 with
      | some n2 =>
        let n1 := e.n1
        let dot := n1.x * n2.x + n1.y * n2.y + n1.z * n2.z
        let ns := (⟨n1.x + n2.x, n1.y + n2.y, n1.z + n2.z⟩ : V3)
        let s := ns.x * (e.mid.x - c.x) + ns.y * (e.mid.y - c.y) + ns.z * (e.mid.z - c.z)
        (acc.1, acc.2.1 + 1, acc.2.2 + if dot < angMin ∧ s < 0 then 1 else 0)
      | none => acc) (0, 0, 0)
  let boundary := counted.1
  let paired := counted.2.1
  let concave := counted.2.2
  ⟨if paired > 0 then (concave : ℚ) / paired else 1,
   (boundary : ℚ) / (if map.length = 0 then 1 else (map.length : ℚ)),
   decide (boundary = 0), map.length⟩

/-! ## convexity.ts — multi-axis concavity -/

structure PlaneBB where
  minA : ℚ
  maxA : ℚ
  minB : ℚ
  maxB : ℚ
deriving DecidableEq

def min3 (a b c : ℚ) : ℚ := min a (min b c)

def max3 (a b c : ℚ) : ℚ := max a (max b c)

/-- Source `triBoundsOnPlane` for axis 2 (Z), 0 (X), else (Y). -/
def triBoundsOnPlane (axis : ℕ) (p0 p1 p2 : V3) : PlaneBB :=
  if axis = 2 then
    ⟨min3 p0.x p1.x p2.x, max3 p0.x p1.x p2.x, min3 p0.y p1.y p2.y, max3 p0.y p1.y p2.y⟩
  else if axis = 0 then
    ⟨min3 p0.y p1.y p2.y, max3 p0.y p1.y p2.y, min3 p0.z p1.z p2.z, max3 p0.z p1.z p2.z⟩
  else
    ⟨min3 p0.x p1.x p2.x, max3 p0.x p1.x p2.x, min3 p0.z p1.z p2.z, max3 p0.z p1.z p2.z⟩

/-- Source `rayAxisHit`: barycentric ray/triangle intersection along an axis. -/
def rayAxisHit (axis : ℕ) (a b : ℚ) (p0 p1 p2 : V3) : Option ℚ :=
  if axis = 2 then
    let den := (p1.y - p2.y) * (p0.x - p2.x) + (p2.x - p1.x) * (p0.y - p2.y)
    if |den| < 1 / 1000000000000000000 then none
    else
      let l1 := ((p1.y - p2.y) * (a - p2.x) + (p2.x - p1.x) * (b - p2.y)) / den
      let l2 := ((p2.y - p0.y) * (a - p2.x) + (p0.x - p2.x) * (b - p2.y)) / den
      let l3 := 1 - l1 - l2
      if l1 < -(1 / 1000000000000) ∨ l2 < -(1 / 1000000000000) ∨ l3 < -(1 / 1000000000000) then none
      else some (l1 * p0.z + l2 * p1.z + l3 * p2.z)
  else if axis = 0 then
    let den := (p1.z - p2.z) * (p0.y - p2.y) + (p2.y - p1.y) * (p0.z - p2.z)
    if |den| < 1 / 1000000000000000000 then none
    else
      let l1 := ((p1.z - p2.z) * (a - p2.y) + (p2.y - p1.y) * (b - p2.z)) / den
      let l2 := ((p2.z - p0.z) * (a - p2.y) + (p0.y - p2.y) * (b - p2.z)) / den
      let l3 := 1 - l1 - l2
      if l1 < -(1 / 1000000000000) ∨ l2 < -(1 / 1000000000000) ∨ l3 < -(1 / 1000000000000) then none
      else some (l1 * p0.x + l2 * p1.x + l3 * p2.x)
  else
    let den := (p1.z - p2.z) * (p0.x - p2.x) + (p2.x - p1.x) * (p0.z - p2.z)
    if |den| < 1 / 1000000000000000000 then none
    else
      let l1 := ((p1.z - p2.z) * (a - p2.x) + (p2.x - p1.x) * (b - p2.z)) / den
      let l2 := ((p2.z - p0.z) * (a - p2.x) + (p0.x - p2.x) * (b - p2.z)) / den
      let l3 := 1 - l1 - l2
      if l1 < -(1 / 1000000000000) ∨ l2 < -(1 / 1000000000000) ∨ l3 < -(1 / 1000000000000) then none
      else some (l1 * p0.y + l2 * p1.y + l3 * p2.y)

def insertDescBy {α : Type} (key : α → ℚ) (x : α) : List α → List α
  | [] => [x]
  | y :: rest => if key y ≥ key x then y :: insertDescBy key x rest else x :: y :: rest

/-- Stable descending sort (JS `Array.prototype.sort` with the comparator
`(a, b) => key b − key a`; V8 sort is stable). -/
def sortDescBy {α : Type} (key : α → ℚ) : List α → List α
  | [] => []
  | x :: rest => insertDescBy key x (sortDescBy key rest)

/-- Group sorted hits: start a new group when the gap to the last group
exceeds `zEps`. -/
def groupByEps (zEps : ℚ) (hits : List ℚ) : List ℚ :=
  hits.foldl (fun groups h =>
    match groups.getLast? with
    | none => [h]
    | some g => if |g - h| > zEps then groups ++ [h] else groups) []

structure MTri where
  p0 : V3
  p1 : V3
  p2 : V3
  bb : PlaneBB
deriving DecidableEq

def multiTrisFor (axis : ℕ) (positions : List V3) (cells : List Cell) : List MTri :=
  cells.filterMap fun c =>
    match positions.get? c.1, positions.get? c.2.1, positions.get? c.2.2 with
    | some p0, some p1, some p2 =>
      -- the Number.isFinite screen on the bounds is vacuous over ℚ
      some ⟨p0, p1, p2, triBoundsOnPlane axis p0 p1 p2⟩
    | _, _, _ => none

structure MultiRatios where
  Z : ℚ
  X : ℚ
  Y : ℚ
deriving DecidableEq

/-- Ray sampling for one axis of `multiAxisConcavityRatios`: the fraction
of grid rays with more than two contact groups.  `grid` is a number in the
source; a `for (i = 0; i < grid; i++)` loop runs `⌈grid⌉` times. -/
def axisRatio (axis : ℕ) (minA maxA minB maxB grid zEps : ℚ) (tris : List MTri) : ℚ :=
  if tris = [] then 1
  else
    let nIter := (jceil grid).toNat
    let dA := grid - 1
    let sA := (maxA - minA) / (if dA = 0 then 1 else dA)
    let sB := (maxB - minB) / (if dA = 0 then 1 else dA)
    let pairs := (List.range nIter).flatMap fun ib => (List.range nIter).map fun ia => (ia, ib)
    let stats := pairs.foldl (fun (acc : ℕ × ℕ) pq =>
      let b := if grid = 1 then (minB + maxB) / 2 else minB + (pq.2 : ℚ) * sB
      let a := if grid = 1 then (minA + maxA) / 2 else minA + (pq.1 : ℚ) * sA
      let hits := tris.filterMap fun t =>
        if a < t.bb.minA ∨ a > t.bb.maxA ∨ b < t.bb.minB ∨ b > t.bb.maxB then none
        else rayAxisHit axis a b t.p0 t.p1 t.p2
      if hits = [] then (acc.1 + 1, acc.2)
      else
        let groups := groupByEps zEps (sortDescBy id hits)
        (acc.1 + 1, acc.2 + if groups.length > 2 then 1 else 0)) (0, 0)
    if stats.1 = 0 then 1 else (stats.2 : ℚ) / stats.1

/-- Source `multiAxisConcavityRatios`: grid clamped to [32,200], one ratio per
principal axis. -/
def multiAxisConcavityRatios (P : Prims) (positions : List V3) (cells : List Cell)
    (gridHint : ℚ) : MultiRatios :=
  let bb := bboxC P positions
  let grid := max 32 (min gridHint 200)
  let zEps := max (1 / 1000000000) (bb.diag * (1 / 1000000))
  ⟨axisRatio 2 bb.bmin.x bb.bmax.x bb.bmin.y bb.bmax.y grid zEps (multiTrisFor 2 positions cells),
   axisRatio 0 bb.bmin.y bb.bmax.y bb.bmin.z bb.bmax.z grid zEps (multiTrisFor 0 positions cells),
   axisRatio 1 bb.bmin.x bb.bmax.x bb.bmin.z bb.bmax.z grid zEps (multiTrisFor 1 positions cells)⟩

/-! ## convexity.ts — machinability analyzer -/

structure XYBB where
  minX : ℚ
  maxX : ℚ
  minY : ℚ
  maxY : ℚ
deriving DecidableEq

def triXYBounds (p0 p1 p2 : V3) : XYBB :=
  ⟨min3 p0.x p1.x p2.x, max3 p0.x p1.x p2.x, min3 p0.y p1.y p2.y, max3 p0.y p1.y p2.y⟩

/-- Source `rayZHit`: barycentric vertical ray/triangle intersection. -/
def rayZHit (x y : ℚ) (p0 p1 p2 : V3) : Option ℚ :=
  let den := (p1.y - p2.y) * (p0.x - p2.x) + (p2.x - p1.x) * (p0.y - p2.y)
  if |den| < 1 / 1000000000000000000 then none
  else
    let l1 := ((p1.y - p2.y) * (x - p2.x) + (p2.x - p1.x) * (y - p2.y)) / den
    let l2 := ((p2.y - p0.y) * (x - p2.x) + (p0.x - p2.x) * (y - p2.y)) / den
    let l3 := 1 - l1 - l2
    if l1 < -(1 / 1000000000000) ∨ l2 < -(1 / 1000000000000) ∨ l3 < -(1 / 1000000000000) then none
    else some (l1 * p0.z + l2 * p1.z + l3 * p2.z)

structure MachTri where
  p0 : V3
  p1 : V3
  p2 : V3
  n : V3
  bb : XYBB
deriving DecidableEq

structure Hit where
  z : ℚ
  nz : ℚ
deriving DecidableEq

instance : Inhabited Hit := ⟨⟨0, 0⟩⟩

/-- Group the descending hit list into surface contacts within `zEps`. -/
def groupHitsByEps (zEps : ℚ) (hits : List Hit) : List Hit :=
  hits.foldl (fun groups h =>
    match groups.getLast? with
    | none => [h]
    | some g => if |g.z - h.z| > zEps then groups ++ [h] else groups) []

structure ColumnStats where
  samples : ℕ
  ok : ℕ
  undercuts : ℕ
  topFaceDown : ℕ
  zLows : List ℚ
deriving DecidableEq

/-- One grid column of the machinability ray-casting loop
(`computeMachinabilityFromMesh`, lines 537-590). -/
def machColumn (zEps basePlaneTol minZ cosMax : ℚ) (tris : List MachTri) (x y : ℚ)
    (acc : ColumnStats) : ColumnStats :=
  let hits := tris.filterMap fun t =>
    if x < t.bb.minX ∨ x > t.bb.maxX ∨ y < t.bb.minY ∨ y > t.bb.maxY then none
    else (rayZHit x y t.p0 t.p1 t.p2).map fun z => ({ z := z, nz := t.n.z } : Hit)
  if hits = [] then acc
  else
    let groups := groupHitsByEps zEps (sortDescBy Hit.z hits)
    let nTopZ0 := (groups.headD default).nz
    let nTopZ := if nTopZ0 < -(19/20) then 1 else nTopZ0
    let zLow := (groups.getLastD default).z
    let isUndercut := decide (groups.length > 2)
    let isOverhang := groups.any fun g => decide (g.nz < -(1/10)) && decide (g.z > minZ + basePlaneTol)
    { samples := acc.samples + 1
      ok := acc.ok + (if ¬(isUndercut = true) ∧ ¬(isOverhang = true) ∧ ¬(nTopZ < -cosMax) then 1 else 0)
      undercuts := acc.undercuts + (if isOverhang = true ∨ isUndercut = true then 1 else 0)
      topFaceDown := acc.topFaceDown + (if nTopZ < -cosMax then 1 else 0)
      zLows := acc.zLows ++ [zLow] }

/-- Base-flatness estimate: modal bin count over the per-column lowest
contacts, bins of width `basePlaneTol`. -/
def baseOkRatioOf (basePlaneTol : ℚ) (zLows : List ℚ) : ℚ :=
  match zLows with
  | [] => 1
  | _ =>
    let binK := 1 / max basePlaneTol (1 / 1000000000000)
    let res := zLows.foldl (fun (st : List (ℤ × ℕ) × ℕ) z =>
      let b := jround (z * binK)
      let c := (st.1.lookup b).getD 0 + 1
      ((b, c) :: st.1, if c > st.2 then c else st.2)) ([], 0)
    (res.2 : ℚ) / zLows.length

/-- The decision and assembly tail of `computeMachinabilityFromMesh`
(lines 611-650): pass thresholds, failure reasons, advisory base warning,
details string. -/
def machFinish (P : Prims) (grid : ℚ) (samples : ℕ)
    (undercutRatio topFaceDownRatio accessibilityScore baseOkRatio : ℚ) :
    MachinabilityResult :=
  let passUndercuts := decide (undercutRatio ≤ 2/100)
  let passTop := decide (topFaceDownRatio ≤ 2/100)
  let passAccess := decide (accessibilityScore ≥ 95)
  let passBase := decide (baseOkRatio ≥ 85/100)
  let isM := passUndercuts && passTop && passAccess
  let fails :=
    (if passUndercuts then [] else ["Undercuts (Socavados/Panza)"]) ++
    (if passTop then [] else ["Caras Invertidas"]) ++
    (if passAccess then [] else ["Acceso bloqueado"])
  let warnings := if passBase then [] else ["Base inestable (Requiere tabs/mordazas)"]
  let failureReason := if fails ≠ [] then some (String.intercalate ", " fails) else none
  let detailsString :=
    "grid=" ++ P.numStr grid ++ "x" ++ P.numStr grid ++
      ", undercuts=" ++ toFixed (undercutRatio * 100) 2 ++ "%" ++
    (match failureReason with
     | some r => " [ERROR: " ++ r ++ "]"
     | none => if warnings ≠ [] then " [WARN: " ++ warnings.headD "" ++ "]" else " [OK]")
  { isThreeAxisMachable := isM
    accessibilityScore := accessibilityScore
    topFaceDownRatio := topFaceDownRatio
    undercutRatio := undercutRatio
    overhangRatio := undercutRatio
    baseFlatRatio := baseOkRatio
    samples := samples
    details := detailsString
    failureReason := failureReason
    warnings := some warnings }

/-- Source `computeMachinabilityFromMesh` (convexity.ts, lines 482-651). -/
def computeMachinabilityFromMesh (P : Prims) (opts : ConvexityOptions)
    (positions : List V3) (cells : List Cell) : MachinabilityResult :=
  let grid := max 32 (min (opts.grid.getD 128) 512)
  let maxUpAngleDeg := max 0 (min (opts.maxUpAngleDeg.getD (899/10)) (899/10))
  let cosMax := P.cos (maxUpAngleDeg * piQ / 180)
  let bb := bboxC P positions
  let diag := if bb.diag = 0 then 1 else bb.diag
  let zEps := opts.zEps.getD (max (1 / 1000000000) (diag * (1 / 100000)))
  let basePlaneTol := max (zEps * 4) (diag * (2 / 1000))
  let tris : List MachTri := cells.filterMap fun c =>
    match positions.get? c.1, positions.get? c.2.1, positions.get? c.2.2 with
    | some p0, some p1, some p2 =>
      some ⟨p0, p1, p2, triNormal P p0 p1 p2, triXYBounds p0 p1 p2⟩
    | _, _, _ => none
  if tris = [] then
    { isThreeAxisMachable := false, accessibilityScore := 0, topFaceDownRatio := 1,
      undercutRatio := 1, overhangRatio := 1, baseFlatRatio := 0, samples := 0,
      details := "Sin triángulos válidos." }
  else
    let nIter := (jceil grid).toNat
    let dG := grid - 1
    let sx := bb.dx / (if dG = 0 then 1 else dG)
    let sy := bb.dy / (if dG = 0 then 1 else dG)
    let pairs := (List.range nIter).flatMap fun iy => (List.range nIter).map fun ix => (ix, iy)
    let stats := pairs.foldl (fun acc pq =>
      let y := if grid = 1 then (bb.bmin.y + bb.bmax.y) / 2 else bb.bmin.y + (pq.2 : ℚ) * sy
      let x := if grid = 1 then (bb.bmin.x + bb.bmax.x) / 2 else bb.bmin.x + (pq.1 : ℚ) * sx
      machColumn zEps basePlaneTol bb.bmin.z cosMax tris x y acc)
      ({ samples := 0, ok := 0, undercuts := 0, topFaceDown := 0, zLows := [] } : ColumnStats)
    let undercutRatio := if stats.samples = 0 then 0 else (stats.undercuts : ℚ) / stats.samples
    let topFaceDownRatio := if stats.samples = 0 then 0 else (stats.topFaceDown : ℚ) / stats.samples
    let accessibilityScore : ℚ :=
      if stats.samples = 0 then 0 else ((jround ((stats.ok : ℚ) / stats.samples * 100) : ℤ) : ℚ)
    machFinish P grid stats.samples undercutRatio topFaceDownRatio accessibilityScore
      (baseOkRatioOf basePlaneTol stats.zLows)

/-! ## convexity.ts — analyzeConvexity -/

/-- The catch-path result of `analyzeConvexity` (lines 768-779). -/
def errResult (msg : String) : ConvexityAnalysis :=
  { isConvex := false, meshVolume := 0, hullVolume := 0, convexityRatio := 0, confidence := 0,
    machinability :=
      { isThreeAxisMachable := false, accessibilityScore := 0, topFaceDownRatio := 1,
        undercutRatio := 1, overhangRatio := 1, baseFlatRatio := 0, samples := 0,
        details := "Error global." },
    error := some msg, details := some msg }

/-- The near-2D early return of `analyzeConvexity` (lines 696-699). -/
def thinResult (P : Prims) (opts : ConvexityOptions) (positions : List V3)
    (cells : List Cell) (dx : ℚ) : ConvexityAnalysis :=
  let msg := "[DEBUG] Geometría 2D: dx=" ++ P.numStr dx
  { isConvex := false, meshVolume := 0, hullVolume := 0, convexityRatio := 0, confidence := 0,
    machinability := computeMachinabilityFromMesh P opts positions cells,
    error := some msg, details := some msg }

def scaleOf (bb : BBoxC) : ℚ := if bb.diag = 0 then 1 else bb.diag

def centerOf (bb : BBoxC) : V3 :=
  ⟨(bb.bmin.x + bb.bmax.x) / 2, (bb.bmin.y + bb.bmax.y) / 2, (bb.bmin.z + bb.bmax.z) / 2⟩

/-- Normalize the welded mesh to the unit box (lines 701-703). -/
def posNOf (bb : BBoxC) (positions : List V3) : List V3 :=
  let c := centerOf bb
  let scale := scaleOf bb
  positions.map fun p => ⟨(p.x - c.x) / scale, (p.y - c.y) / scale, (p.z - c.z) / scale⟩

/-- Coarse dedup of hull input points (lines 705-711), insertion order. -/
def hullPtsOf (baseEps : ℚ) (posN : List V3) : List V3 :=
  let kf := 1 / (max (1 / 1000000000) baseEps * 100000)
  (posN.foldl (fun (st : List (WKey × V3)) p =>
    let K : WKey := (jround (p.x * kf), jround (p.y * kf), jround (p.z * kf))
    match alookup K st with
    | some _ => st
    | none => st ++ [(K, p)]) ([] : List (WKey × V3))).map Prod.snd

/-- Oriented cells of the normalized mesh (line 713). -/
def cellsOrientedOf (P : Prims) (bb : BBoxC) (positions : List V3) (cells : List Cell) :
    List Cell :=
  orientFacesOutward P (posNOf bb positions) cells

/-- Normalized mesh volume `vMeshN` (line 715). -/
def vMeshNOf (P : Prims) (bb : BBoxC) (positions : List V3) (cells : List Cell) : ℚ :=
  |meshVolume (cellsOrientedOf P bb positions cells) (posNOf bb positions)|

/-- The convex hull cells of the deduplicated normalized points (line 717). -/
def hullCellsOf (hull : List V3 → List Cell) (opts : ConvexityOptions) (bb : BBoxC)
    (positions : List V3) : List Cell :=
  hull (hullPtsOf (opts.eps.getD (1/1000000)) (posNOf bb positions))

/-- Normalized hull volume `vHullN`, 0 when the hull comes back empty
(lines 716-721). -/
def vHullNOf (hull : List V3 → List Cell) (opts : ConvexityOptions) (bb : BBoxC)
    (positions : List V3) : ℚ :=
  if hullCellsOf hull opts bb positions ≠ [] then
    |meshVolume (hullCellsOf hull opts bb positions)
      (hullPtsOf (opts.eps.getD (1/1000000)) (posNOf bb positions))|
  else 0

/-- Source `ratioRaw = vHullN > 0 ? vMeshN / vHullN : 0` (line 727). -/
def ratioRawOf (P : Prims) (hull : List V3 → List Cell) (opts : ConvexityOptions)
    (bb : BBoxC) (positions : List V3) (cells : List Cell) : ℚ :=
  if vHullNOf hull opts bb positions > 0 then
    vMeshNOf P bb positions cells / vHullNOf hull opts bb positions
  else 0

/-- Edge statistics of the normalized oriented mesh (line 723). -/
def edgeStatsOf (P : Prims) (bb : BBoxC) (positions : List V3) (cells : List Cell) :
    EdgeStats :=
  buildEdgeStats P (posNOf bb positions) (cellsOrientedOf P bb positions cells)

/-- Maximum multi-axis concavity ratio `multiMax` (lines 724-733). -/
def multiMaxOf (P : Prims) (opts : ConvexityOptions) (bb : BBoxC) (positions : List V3)
    (cells : List Cell) : ℚ :=
  let multi := multiAxisConcavityRatios P (posNOf bb positions)
    (cellsOrientedOf P bb positions cells) (min 100 (opts.grid.getD 128))
  max (max multi.Z multi.X) multi.Y

/-- The main analysis body of `analyzeConvexity` after the near-2D check
(lines 701-767), assembled from the named stage functions above. -/
def analyzeMain (P : Prims) (hull : List V3 → List Cell) (opts : ConvexityOptions)
    (positions : List V3) (cells : List Cell) (bb : BBoxC) : ConvexityAnalysis :=
  let volTol := opts.tolerance.getD (99/100)
  let badGap := opts.badGap.getD (5/100)
  let scale := scaleOf bb
  let vMeshN := vMeshNOf P bb positions cells
  let vHullN := vHullNOf hull opts bb positions
  let edgeStats := edgeStatsOf P bb positions cells
  let ratioRaw := ratioRawOf P hull opts bb positions cells
  let ratioClamped := clamp01 ratioRaw
  let multiMax := multiMaxOf P opts bb positions cells
  let volumePass := decide (ratioRaw ≥ volTol)
  let multiPass := decide (multiMax ≤ 5/1000)
  let edgePass := decide (edgeStats.concaveRatio ≤ 2/1000)
  let isConvex := multiPass && edgePass && (volumePass || decide (ratioRaw > 95/100))
  let conf0 := confidenceFromRatio ratioRaw badGap
  let conf1 := if multiPass then conf0 else min conf0 20
  let conf2 := conf1 - min 40 (((jround (edgeStats.concaveRatio * 100000) : ℤ) : ℚ) / 25)
  let conf3 :=
    if edgeStats.watertight then conf2
    else min conf2 60 - min 20 (((jround (edgeStats.boundaryRatio * 100) : ℤ) : ℚ))
  let confidence := max 0 (min 100 conf3)
  let mach := computeMachinabilityFromMesh P opts positions (cellsOrientedOf P bb positions cells)
  let volScale := scale ^ 3
  let vMesh := vMeshN * volScale
  let vHull := vHullN * volScale
  let errorString := "[DEBUG] V=" ++ P.toExp vMesh 4 ++ " | H=" ++ P.toExp vHull 4 ++
    " | ratio=" ++ toFixed ratioRaw 4 ++ " | mach=" ++ (mach.failureReason.getD "OK")
  { isConvex := isConvex, meshVolume := vMesh, hullVolume := vHull,
    convexityRatio := ratioClamped, confidence := confidence, machinability := mach,
    error := some errorString, details := some errorString }

/-- Sanitize, optionally rotate about the bbox center, and weld
(lines 674-692). -/
def sanWeldOf (P : Prims) (opts : ConvexityOptions) (rot : Option ModelRotation)
    (positions0 : List V3) (cells0 : List Cell) : List V3 × List Cell :=
  let baseEps := opts.eps.getD (1/1000000)
  let san := sanitizeMesh P positions0 cells0
  let positions :=
    match rot with
    | some r =>
      if r.x ≠ 0 ∨ r.y ≠ 0 ∨ r.z ≠ 0 then
        let rr := toRadiansMaybe r
        let c := centerOf (bboxC P san.1)
        applyRotation P (san.1.map fun p => ⟨p.x - c.x, p.y - c.y, p.z - c.z⟩) rr
      else san.1
    | none => san.1
  let bb0 := bboxC P positions
  let weldEps := max (baseEps * max bb0.diag 1) (1 / 1000000000)
  weldMesh positions san.2 weldEps

/-- Source `analyzeConvexity` after a successful parse.  The in-`try` throw for
meshes with fewer than 3 vertices or no cells lands in the catch path. -/
def analyzeConvexityCore (P : Prims) (hull : List V3 → List Cell) (opts : ConvexityOptions)
    (rot : Option ModelRotation) (positions0 : List V3) (cells0 : List Cell) :
    ConvexityAnalysis :=
  if positions0.length < 3 ∨ cells0.length < 1 then errResult "STL sin triángulos válidos."
  else
    let wm := sanWeldOf P opts rot positions0 cells0
    let bb := bboxC P wm.1
    let baseEps := opts.eps.getD (1/1000000)
    let lenEps := max (baseEps * max bb.diag 1) (1 / 1000000000)
    if isThinBBox bb.dx bb.dy bb.dz lenEps then thinResult P opts wm.1 wm.2 bb.dx
    else analyzeMain P hull opts wm.1 wm.2 bb

/-- Source `analyzeConvexity` (lines 657-780): parse errors land in the catch
path; geometric processing never throws. -/
def analyzeConvexity (P : Prims) (hull : List V3 → List Cell) (f32 : F32)
    (asciiParse : List ℕ → Except String (List (V3 × V3 × V3))) (bytes : List ℕ)
    (opts : ConvexityOptions) (rot : Option ModelRotation) : ConvexityAnalysis :=
  match parseSTLc f32 asciiParse bytes with
  | .error e => errResult e
  | .ok pc => analyzeConvexityCore P hull opts rot pc.1 pc.2

/-- A concrete primitive bundle for closed-instance evaluations: the
real-valued primitives are constant functions (admissible, since every
theorem below is universally quantified over the bundle). -/
def constPrims : Prims := ⟨fun _ => 1, fun _ => 1, fun _ => 1, fun _ => "", fun _ _ => ""⟩

/-! # Claim theorems -/

/-- C4, counterexample: the claim says the N+1 generated planes include
both `zMin` and `zMax`.  With `zMin = 0`, `zMax = 1`, `layerHeight = 2/5`
the planes are `0, 2/5, 4/5, 6/5`: evenly spaced from `zMin`, but `zMax = 1`
is not among them (the top plane overshoots to `6/5`). -/
theorem C4_layers_counterexample :
    computeLayers 0 1 (2/5) false = [0, 2/5, 4/5, 6/5] ∧
    (1 : ℚ) ∉ computeLayers 0 1 (2/5) false :=
  ⟨of_decide_eq_true (by with_unfolding_all rfl),
   of_decide_eq_true (by with_unfolding_all rfl)⟩

/-- C4 (amended): for `zMin < zMax` and `layerHeight > 0` the slicer takes
`N = ceil((zMax−zMin)/layerHeight)` and generates exactly N+1 planes
`zMin + i·layerHeight` (evenly spaced, starting at `zMin`), reversed when
slicing top-down; the last plane `zMin + N·layerHeight` is ≥ `zMax`, and
`zMax` itself is generated exactly when `layerHeight` divides the vertical
extent (i.e. when `zMin + N·layerHeight = zMax`). -/
theorem C4_layer_planes (zMin zMax h : ℚ) (tD : Bool)
    (h1 : zMin < zMax) (h2 : 0 < h) :
    (computeLayers zMin zMax h tD).length = (jceil ((zMax - zMin) / h)).toNat + 1 ∧
    computeLayers zMin zMax h false =
      (List.range ((jceil ((zMax - zMin) / h)).toNat + 1)).map (fun i : ℕ => zMin + (i : ℚ) * h) ∧
    computeLayers zMin zMax h true = (computeLayers zMin zMax h false).reverse ∧
    zMin ∈ computeLayers zMin zMax h tD ∧
    zMax ≤ zMin + ((jceil ((zMax - zMin) / h)).toNat : ℚ) * h ∧
    (zMax ∈ computeLayers zMin zMax h tD ↔
      zMin + ((jceil ((zMax - zMin) / h)).toNat : ℚ) * h = zMax) := by
  have hq : 0 < (zMax - zMin) / h := div_pos (by linarith) h2
  have hc1 : (1 : ℤ) ≤ jceil ((zMax - zMin) / h) := by
    have := Int.ceil_pos.mpr hq
    simpa [jceil] using this
  have h1n : 1 ≤ (jceil ((zMax - zMin) / h)).toNat := by omega
  have hmax : Nat.max 1 (jceil ((zMax - zMin) / h)).toNat =
      (jceil ((zMax - zMin) / h)).toNat := Nat.max_eq_right h1n
  have hN : ((jceil ((zMax - zMin) / h)).toNat : ℚ) = ((jceil ((zMax - zMin) / h) : ℤ) : ℚ) := by
    have h0 : (0 : ℤ) ≤ jceil ((zMax - zMin) / h) := by omega
    exact_mod_cast congrArg (fun (n : ℤ) => (n : ℚ)) (Int.toNat_of_nonneg h0)
  have hbase : computeLayers zMin zMax h false =
      (List.range ((jceil ((zMax - zMin) / h)).toNat + 1)).map (fun i : ℕ => zMin + (i : ℚ) * h) := by
    unfold computeLayers
    rw [hmax]
    simp
  have hrev : computeLayers zMin zMax h true = (computeLayers zMin zMax h false).reverse := by
    unfold computeLayers
    simp
  have hmem_iff : ∀ z : ℚ, z ∈ computeLayers zMin zMax h tD ↔
      z ∈ (List.range ((jceil ((zMax - zMin) / h)).toNat + 1)).map
        (fun i : ℕ => zMin + (i : ℚ) * h) := by
    intro z
    cases tD
    · rw [hbase]
    · rw [hrev, List.mem_reverse, hbase]
  refine ⟨?_, hbase, hrev, ?_, ?_, ?_⟩
  · cases tD
    · rw [hbase]
      simp
    · rw [hrev, List.length_reverse, hbase]
      simp
  · refine (hmem_iff zMin).mpr (List.mem_map.mpr ⟨0, List.mem_range.mpr (Nat.succ_pos _), ?_⟩)
    simp
  · have hle : (zMax - zMin) / h ≤ ((jceil ((zMax - zMin) / h)).toNat : ℚ) := by
      rw [hN]; exact Int.le_ceil _
    have := mul_le_mul_of_nonneg_right hle h2.le
    rw [div_mul_cancel₀ _ (ne_of_gt h2)] at this
    linarith
  · constructor
    · intro hmem
      obtain ⟨i, _, hz⟩ := List.mem_map.mp ((hmem_iff zMax).mp hmem)
      have hiq : ((i : ℚ)) = (zMax - zMin) / h := by
        field_simp
        linarith
      have hceil : jceil ((zMax - zMin) / h) = (i : ℤ) := by
        rw [jceil, ← hiq]
        exact_mod_cast Int.ceil_natCast i
      rw [hceil] at hN ⊢
      simp only [Int.toNat_natCast] at hN ⊢
      rw [hN]
      exact hz
    · intro heq
      refine (hmem_iff zMax).mpr (List.mem_map.mpr
        ⟨(jceil ((zMax - zMin) / h)).toNat, List.mem_range.mpr (Nat.lt_succ_self _), heq⟩)

/-- C4 witness: with `zMin = 0`, `zMax = 1`, `layerHeight = 1/2` there are
`ceil(2)+1 = 3` planes, and both bounds are among them. -/
theorem C4_layer_planes_witness :
    (computeLayers 0 1 (1/2) false).length = 3 ∧
    (0 : ℚ) ∈ computeLayers 0 1 (1/2) false ∧
    (1 : ℚ) ∈ computeLayers 0 1 (1/2) false := by
  have H := C4_layer_planes 0 1 (1/2) false (by norm_num) (by norm_num)
  refine ⟨?_, H.2.2.2.1,
    H.2.2.2.2.2.mpr (of_decide_eq_true (by with_unfolding_all rfl))⟩
  rw [H.1]
  exact of_decide_eq_true (by with_unfolding_all rfl)

/-- C10: the plane generator clamps the interval count below by 1, so it
always yields at least two planes; whenever the vertical extent divided by
the layer height is ≤ 1 (zero extent included) the planes are exactly
`zMin` and `zMin + layerHeight`; and the topmost plane can lie strictly
above `zMax` (e.g. bounds 0..1 at layer height 2/5 generate the plane 6/5). -/
theorem C10_plane_count (zMin zMax h : ℚ) (tD : Bool) :
    (computeLayers zMin zMax h tD).length =
      Nat.max 1 (jceil ((zMax - zMin) / h)).toNat + 1 ∧
    2 ≤ (computeLayers zMin zMax h tD).length ∧
    ((zMax - zMin) / h ≤ 1 →
      computeLayers zMin zMax h tD = if tD then [zMin + h, zMin] else [zMin, zMin + h]) ∧
    (∃ z ∈ computeLayers 0 1 (2/5) tD, (1 : ℚ) < z) := by
  have hlen : ∀ td : Bool, (computeLayers zMin zMax h td).length =
      Nat.max 1 (jceil ((zMax - zMin) / h)).toNat + 1 := by
    intro td
    unfold computeLayers
    cases td
    · simp
    · simp
  refine ⟨hlen tD, ?_, ?_, ?_⟩
  · rw [hlen tD]
    have : 1 ≤ Nat.max 1 (jceil ((zMax - zMin) / h)).toNat := Nat.le_max_left _ _
    omega
  · intro hle
    have hc : jceil ((zMax - zMin) / h) ≤ 1 := by
      have := Int.ceil_le.mpr (by exact_mod_cast hle : (zMax - zMin) / h ≤ ((1 : ℤ) : ℚ))
      simpa [jceil] using this
    have h1n : (jceil ((zMax - zMin) / h)).toNat ≤ 1 := by omega
    have hmax : Nat.max 1 (jceil ((zMax - zMin) / h)).toNat = 1 :=
      Nat.max_eq_left h1n
    unfold computeLayers
    rw [hmax]
    cases tD
    · simp [List.range_succ]
    · simp [List.range_succ]
  · cases tD
    · exact ⟨6/5, of_decide_eq_true (by with_unfolding_all rfl),
        of_decide_eq_true (by with_unfolding_all rfl)⟩
    · exact ⟨6/5, of_decide_eq_true (by with_unfolding_all rfl),
        of_decide_eq_true (by with_unfolding_all rfl)⟩

/-- C10 witness: a zero-extent mesh at layer height 3 is sliced at exactly
the two planes 0 and 3. -/
theorem C10_plane_count_witness : computeLayers 0 0 3 false = [0, 0 + 3] := by
  have H := (C10_plane_count 0 0 3 false).2.2.1 (by norm_num)
  simpa using H

/-- C9: the machinability analyzer stores the same quotient in
`overhangRatio` and `undercutRatio` (overhang and multi-contact columns
are accumulated into one `undercuts` counter, and the empty-mesh early
return sets both fields to 1), so the two fields are always equal. -/
theorem C9_overhang_equals_undercut (P : Prims) (opts : ConvexityOptions)
    (positions : List V3) (cells : List Cell) :
    (computeMachinabilityFromMesh P opts positions cells).overhangRatio =
      (computeMachinabilityFromMesh P opts positions cells).undercutRatio := by
  unfold computeMachinabilityFromMesh
  dsimp only
  split
  · rfl
  · rfl

/-- C1: the machinability verdict satisfies
`isThreeAxisMachable = (undercutRatio ≤ 2%) ∧ (topFaceDownRatio ≤ 2%) ∧
(accessibilityScore ≥ 95)` on every analyzed mesh, and in the decision
stage the base-flatness ratio influences neither the verdict nor the
failure-reason list: it only determines the advisory warnings entry. -/
theorem C1_machinability_verdict (P : Prims) (opts : ConvexityOptions)
    (positions : List V3) (cells : List Cell) (g : ℚ) (s : ℕ)
    (u t a b b' : ℚ) :
    ((computeMachinabilityFromMesh P opts positions cells).isThreeAxisMachable =
      (decide ((computeMachinabilityFromMesh P opts positions cells).undercutRatio ≤ 2/100) &&
       decide ((computeMachinabilityFromMesh P opts positions cells).topFaceDownRatio ≤ 2/100) &&
       decide ((computeMachinabilityFromMesh P opts positions cells).accessibilityScore ≥ 95))) ∧
    (machFinish P g s u t a b).isThreeAxisMachable =
      (machFinish P g s u t a b').isThreeAxisMachable ∧
    (machFinish P g s u t a b).failureReason = (machFinish P g s u t a b').failureReason ∧
    (machFinish P g s u t a b).warnings =
      some (if decide (b ≥ 85/100) then [] else ["Base inestable (Requiere tabs/mordazas)"]) := by
  refine ⟨?_, rfl, rfl, rfl⟩
  unfold computeMachinabilityFromMesh
  dsimp only
  split
  · with_unfolding_all rfl
  · rfl

/-- C2: whenever an analysis reaches the convexity decision (the main body
after the degenerate-input returns), `isConvex` is exactly
`multiMax ≤ 0.5% AND concaveRatio ≤ 0.2% AND (ratioRaw ≥ tolerance
(default 0.99) OR ratioRaw > 0.95)`, over the ratios computed by the
analysis itself. -/
theorem C2_isConvex_decision (P : Prims) (hull : List V3 → List Cell)
    (opts : ConvexityOptions) (positions : List V3) (cells : List Cell) (bb : BBoxC) :
    (analyzeMain P hull opts positions cells bb).isConvex =
      (decide (multiMaxOf P opts bb positions cells ≤ 5/1000) &&
       decide ((edgeStatsOf P bb positions cells).concaveRatio ≤ 2/1000) &&
       (decide (ratioRawOf P hull opts bb positions cells ≥ opts.tolerance.getD (99/100)) ||
        decide (ratioRawOf P hull opts bb positions cells > 95/100))) := rfl

/-! ## Except helper lemmas for the parser theorems -/

theorem except_bind_eq_ok {α β : Type} {x : Except String α} {f : α → Except String β}
    {b : β} (h : (x >>= f) = .ok b) : ∃ a, x = .ok a ∧ f a = .ok b := by
  cases x with
  | ok a => exact ⟨a, rfl, h⟩
  | error e => exact absurd h (by simp [Bind.bind, Except.bind])

theorem except_bind_eq_error {α β : Type} {x : Except String α} {f : α → Except String β}
    {e : String} (h : (x >>= f) = .error e) :
    x = .error e ∨ ∃ a, x = .ok a ∧ f a = .error e := by
  cases x with
  | ok a => exact Or.inr ⟨a, rfl, h⟩
  | error e' =>
    left
    simp only [Bind.bind, Except.bind] at h
    injection h with he
    rw [he]

theorem getF32_ok_bound {f32 : F32} {bytes : List ℕ} {off : ℕ} {q : ℚ}
    (h : getF32 f32 bytes off = .ok q) : off + 4 ≤ bytes.length := by
  unfold getF32 at h
  split at h
  · assumption
  · exact absurd h (by simp)

theorem getF32_error {f32 : F32} {bytes : List ℕ} {off : ℕ} {e : String}
    (h : getF32 f32 bytes off = .error e) : e = "RangeError" := by
  unfold getF32 at h
  split at h
  · exact absurd h (by simp)
  · simpa using h.symm

theorem getU32_ok {bytes : List ℕ} {off n : ℕ} (h : getU32 bytes off = .ok n) :
    off + 4 ≤ bytes.length ∧ n = readU32at bytes off := by
  unfold getU32 at h
  split at h
  · refine ⟨by assumption, ?_⟩
    have := (Except.ok.injEq _ _).mp h
    rw [← this]
    rfl
  · exact absurd h (by simp)

theorem getU32_error {bytes : List ℕ} {off : ℕ} {e : String}
    (h : getU32 bytes off = .error e) : e = "RangeError" := by
  unfold getU32 at h
  split at h
  · exact absurd h (by simp)
  · simpa using h.symm

theorem readV3_ok_bound {f32 : F32} {bytes : List ℕ} {off : ℕ} {v : V3}
    (h : readV3 f32 bytes off = .ok v) : off + 12 ≤ bytes.length := by
  unfold readV3 at h
  obtain ⟨x, hx, h⟩ := except_bind_eq_ok h
  obtain ⟨y, hy, h⟩ := except_bind_eq_ok h
  obtain ⟨z, hz, h⟩ := except_bind_eq_ok h
  have := getF32_ok_bound hz
  omega

theorem readV3_error {f32 : F32} {bytes : List ℕ} {off : ℕ} {e : String}
    (h : readV3 f32 bytes off = .error e) : e = "RangeError" := by
  unfold readV3 at h
  rcases except_bind_eq_error h with h1 | ⟨x, hx, h⟩
  · exact getF32_error h1
  rcases except_bind_eq_error h with h1 | ⟨y, hy, h⟩
  · exact getF32_error h1
  rcases except_bind_eq_error h with h1 | ⟨z, hz, h⟩
  · exact getF32_error h1
  · exact absurd h (by simp [Pure.pure, Except.pure])

theorem parseTris_ok_bound (f32 : F32) (bytes : List ℕ) :
    ∀ (n : ℕ) (off : ℕ) (tris : List Triangle), parseTris f32 bytes off n = .ok tris →
      n = 0 ∨ off + 50 * n ≤ bytes.length + 2 := by
  intro n
  induction n with
  | zero => exact fun _ _ _ => Or.inl rfl
  | succ k ih =>
    intro off tris h
    right
    simp only [parseTris] at h
    obtain ⟨nrm, hn, h⟩ := except_bind_eq_ok h
    obtain ⟨a, ha, h⟩ := except_bind_eq_ok h
    obtain ⟨b2, hb, h⟩ := except_bind_eq_ok h
    obtain ⟨c2, hc, h⟩ := except_bind_eq_ok h
    obtain ⟨rest, hrest, _⟩ := except_bind_eq_ok h
    have hcb := readV3_ok_bound hc
    rcases ih (off + 50) rest hrest with h0 | hk
    · omega
    · omega

theorem parseTris_error (f32 : F32) (bytes : List ℕ) :
    ∀ (n : ℕ) (off : ℕ) (e : String), parseTris f32 bytes off n = .error e →
      e = "RangeError" := by
  intro n
  induction n with
  | zero =>
    intro off e h
    exact absurd h (by simp [parseTris])
  | succ k ih =>
    intro off e h
    simp only [parseTris] at h
    rcases except_bind_eq_error h with h1 | ⟨nrm, hn, h⟩
    · exact readV3_error h1
    rcases except_bind_eq_error h with h1 | ⟨a, ha, h⟩
    · exact readV3_error h1
    rcases except_bind_eq_error h with h1 | ⟨b2, hb, h⟩
    · exact readV3_error h1
    rcases except_bind_eq_error h with h1 | ⟨c2, hc, h⟩
    · exact readV3_error h1
    rcases except_bind_eq_error h with h1 | ⟨rest, hrest, h⟩
    · exact ih (off + 50) e h1
    · exact absurd h (by simp [Pure.pure, Except.pure])

set_option maxRecDepth 4000 in
/-- C5, counterexample: a 132-byte buffer declaring one triangle is 2 bytes
shorter than the header-declared size `84 + 50·1 = 134`, yet the G-code
pipeline's binary parser (which has no length check and never reads the
trailing 2-byte attribute) returns a one-triangle list instead of failing. -/
theorem C5_truncated_parse_counterexample :
    (List.replicate 80 0 ++ [1, 0, 0, 0] ++ List.replicate 48 0 : List ℕ).length = 132 ∧
    132 < 84 + 50 * readU32at (List.replicate 80 0 ++ [1, 0, 0, 0] ++ List.replicate 48 0) 80 ∧
    parseSTLg (fun _ _ _ _ => 0) (List.replicate 80 0 ++ [1, 0, 0, 0] ++ List.replicate 48 0) =
      .ok [⟨⟨0, 0, 0⟩, ⟨0, 0, 0⟩, ⟨0, 0, 0⟩, ⟨0, 0, 0⟩⟩] :=
  ⟨by decide, by decide, by with_unfolding_all rfl⟩

/-- C5 (amended): the analysis pipeline's binary parser rejects every
buffer shorter than the header-declared size `84 + 50·triCount` with a
distinguishable format error; the G-code pipeline's parser has no such
check — its only failures are `DataView` `RangeError`s, and it can succeed
on a buffer up to 2 bytes short of the declared size (it never reads the
final attribute bytes), so any successful parse only guarantees
`84 + 50·triCount ≤ length + 2`. -/
theorem C5_truncated_buffer_behavior :
    (∀ (f32 : F32) (bytes : List ℕ), bytes.length < 84 + 50 * readU32at bytes 80 →
      parseBinarySTL f32 bytes = .error
        (if bytes.length < 84 then "STL binario demasiado corto." else "STL binario truncado.")) ∧
    (∀ (f32 : F32) (bytes : List ℕ) (tris : List Triangle),
      parseSTLg f32 bytes = .ok tris → 84 + 50 * readU32at bytes 80 ≤ bytes.length + 2) ∧
    (∀ (f32 : F32) (bytes : List ℕ) (e : String),
      parseSTLg f32 bytes = .error e → e = "RangeError") := by
  refine ⟨?_, ?_, ?_⟩
  · intro f32 bytes hshort
    unfold parseBinarySTL
    by_cases h84 : bytes.length < 84
    · simp [h84]
    · have hguard : bytes.length < 84 + readU32at bytes 80 * 50 := by omega
      simp [h84, hguard]
  · intro f32 bytes tris h
    unfold parseSTLg at h
    obtain ⟨n, hn, h⟩ := except_bind_eq_ok h
    obtain ⟨h4, hval⟩ := getU32_ok hn
    rcases parseTris_ok_bound f32 bytes n 84 tris h with h0 | hb
    · omega
    · omega
  · intro f32 bytes e h
    unfold parseSTLg at h
    rcases except_bind_eq_error h with h1 | ⟨n, hn, h⟩
    · exact getU32_error h1
    · exact parseTris_error f32 bytes n 84 e h

/-- C5 witness: the analysis parser rejects a 1-byte buffer with the
too-short format error. -/
theorem C5_truncated_buffer_behavior_witness :
    parseBinarySTL (fun _ _ _ _ => 0) [0] = .error "STL binario demasiado corto." := by
  have H := C5_truncated_buffer_behavior.1 (fun _ _ _ _ => 0) [0] (by decide)
  simpa using H

/-! ## Feed word lemmas for the emitter -/

theorem countP_isFeedTok_mode (mo : Option MoveType) (ty : MoveType) :
    (if mo = some ty then ([] : List String) else [moveTypeStr ty]).countP isFeedTok = 0 := by
  cases ty <;> split <;> rfl

theorem countP_isFeedTok_X (mx : Option ℚ) (prec : ℕ) :
    (match mx with
      | some v => ["X" ++ fmtNum v prec]
      | none => ([] : List String)).countP isFeedTok = 0 := by
  cases mx <;> rfl

theorem countP_isFeedTok_Y (my : Option ℚ) (prec : ℕ) :
    (match my with
      | some v => ["Y" ++ fmtNum v prec]
      | none => ([] : List String)).countP isFeedTok = 0 := by
  cases my <;> rfl

theorem countP_isFeedTok_Z (mz : Option ℚ) (prec : ℕ) :
    (match mz with
      | some v => ["Z" ++ fmtNum v prec]
      | none => ([] : List String)).countP isFeedTok = 0 := by
  cases mz <;> rfl

/-- Per-move feed emission: the emitted token line carries a feed word
exactly when the move is a cutting move with a feed that is not
modally suppressed, and the remembered feed updates only then. -/
theorem emitMove_feedCount (prec : ℕ) (st : EmitState) (m : Move) :
    (emitMoveTokens prec st m).1.countP isFeedTok =
      (if m.type = .G1 ∧ m.feed.isSome = true ∧ feedClose st.feed (m.feed.getD 0) = false
       then 1 else 0) ∧
    (emitMoveTokens prec st m).2.feed =
      (if m.type = .G1 ∧ m.feed.isSome = true ∧ feedClose st.feed (m.feed.getD 0) = false
       then m.feed else st.feed) := by
  rcases m with ⟨ty, mx, my, mz, mf⟩
  rcases st with ⟨mo, cf⟩
  unfold emitMoveTokens
  cases ty
  case G0 =>
    constructor
    · simp [List.countP_append, countP_isFeedTok_mode, countP_isFeedTok_X,
        countP_isFeedTok_Y, countP_isFeedTok_Z]
    · simp
  case G1 =>
    cases mf
    case none =>
      constructor
      · simp [List.countP_append, countP_isFeedTok_mode, countP_isFeedTok_X,
          countP_isFeedTok_Y, countP_isFeedTok_Z]
      · simp
    case some f =>
      cases cf
      case none =>
        constructor
        · simp [List.countP_append, countP_isFeedTok_mode, countP_isFeedTok_X,
            countP_isFeedTok_Y, countP_isFeedTok_Z, feedClose, isFeedTok]
        · simp [feedClose]
      case some c =>
        dsimp only
        by_cases hf : |f - c| > (1 : ℚ) / 1000000000
        · have hcl : feedClose (some c) f = false := decide_eq_false (not_le.mpr hf)
          rw [if_pos hf]
          constructor
          · simp [List.countP_append, countP_isFeedTok_mode, countP_isFeedTok_X,
              countP_isFeedTok_Y, countP_isFeedTok_Z, hcl, isFeedTok]
          · simp [hcl]
        · have hcl : feedClose (some c) f = true := decide_eq_true (not_lt.mp hf)
          rw [if_neg hf]
          constructor
          · simp [List.countP_append, countP_isFeedTok_mode, countP_isFeedTok_X,
              countP_isFeedTok_Y, countP_isFeedTok_Z, hcl]
          · simp [hcl]

theorem feedWordCount_emitBody_cons (prec : ℕ) (st : EmitState) (m : Move)
    (rest : List Move) :
    feedWordCount (emitBodySt prec st (m :: rest)).1 =
      (emitMoveTokens prec st m).1.countP isFeedTok +
      feedWordCount (emitBodySt prec (emitMoveTokens prec st m).2 rest).1 := by
  have hrw : (emitBodySt prec st (m :: rest)).1 =
      (if (emitMoveTokens prec st m).1 = []
       then (emitBodySt prec (emitMoveTokens prec st m).2 rest).1
       else (emitMoveTokens prec st m).1 ::
         (emitBodySt prec (emitMoveTokens prec st m).2 rest).1) := rfl
  rw [hrw]
  by_cases h : (emitMoveTokens prec st m).1 = []
  · simp [feedWordCount, h]
  · simp [feedWordCount, h]

theorem feedClose_self (cf : Option ℚ) (f : ℚ) (h : cf = some f) :
    feedClose cf f = true := by
  subst h
  simp [feedClose]

/-- A run of cutting moves at feed `f` starting from a state whose
remembered feed is within tolerance of `f` emits no feed word. -/
theorem emitBody_feed_run_zero (prec : ℕ) (f : ℚ) :
    ∀ (run : List Move) (st : EmitState),
      (∀ mv ∈ run, mv.type = .G1 ∧ mv.feed = some f) →
      feedClose st.feed f = true →
      feedWordCount (emitBodySt prec st run).1 = 0 := by
  intro run
  induction run with
  | nil => intro st _ _; rfl
  | cons m rest ih =>
    intro st hall hcl
    obtain ⟨hty, hfd⟩ := hall m (List.mem_cons_self m rest)
    have hm := emitMove_feedCount prec st m
    have hcond : ¬(m.type = .G1 ∧ m.feed.isSome = true ∧
        feedClose st.feed (m.feed.getD 0) = false) := by
      rw [hfd]
      simp
      intro _
      simpa [hfd] using hcl
    rw [feedWordCount_emitBody_cons, hm.1, if_neg hcond]
    have hst : (emitMoveTokens prec st m).2.feed = st.feed := by
      rw [hm.2, if_neg hcond]
    rw [ih (emitMoveTokens prec st m).2 (fun mv hmv => hall mv (List.mem_cons_of_mem m hmv))
      (by rw [hst]; exact hcl)]

/-- C6 (amended): a feed word is emitted exactly on cutting moves whose
feed is present and not modally suppressed (no feed emitted yet, or
differing by more than 1e-9 from the last emitted feed); consequently a
nonempty run of consecutive cutting moves at a constant feed `f` emits the
feed word exactly once when the state's remembered feed differs from `f`
(in particular at the start of the program), and zero times when the
previously emitted feed is already within 1e-9 of `f`. -/
theorem C6_feed_word_emission (prec : ℕ) (st : EmitState) (m : Move) (f : ℚ)
    (run : List Move) (hrun : ∀ mv ∈ run, mv.type = .G1 ∧ mv.feed = some f)
    (hne : run ≠ []) :
    ((emitMoveTokens prec st m).1.countP isFeedTok =
      (if m.type = .G1 ∧ m.feed.isSome = true ∧ feedClose st.feed (m.feed.getD 0) = false
       then 1 else 0)) ∧
    feedWordCount (emitBodySt prec st run).1 =
      (if feedClose st.feed f = false then 1 else 0) := by
  refine ⟨(emitMove_feedCount prec st m).1, ?_⟩
  obtain ⟨m0, rest, rfl⟩ : ∃ m0 rest, run = m0 :: rest := by
    cases run with
    | nil => exact absurd rfl hne
    | cons a b => exact ⟨a, b, rfl⟩
  obtain ⟨hty, hfd⟩ := hrun m0 (List.mem_cons_self m0 rest)
  have hm := emitMove_feedCount prec st m0
  by_cases hcl : feedClose st.feed f = true
  · rw [emitBody_feed_run_zero prec f (m0 :: rest) st hrun hcl]
    simp [hcl]
  · have hclf : feedClose st.feed f = false := by
      cases h : feedClose st.feed f
      · rfl
      · exact absurd h hcl
    have hcond : m0.type = .G1 ∧ m0.feed.isSome = true ∧
        feedClose st.feed (m0.feed.getD 0) = false := by
      refine ⟨hty, by rw [hfd]; rfl, by rw [hfd]; simpa using hclf⟩
    rw [feedWordCount_emitBody_cons, hm.1, if_pos hcond]
    have hst : (emitMoveTokens prec st m0).2.feed = some f := by
      rw [hm.2, if_pos hcond, hfd]
    rw [emitBody_feed_run_zero prec f rest (emitMoveTokens prec st m0).2
      (fun mv hmv => hrun mv (List.mem_cons_of_mem m0 hmv))
      (by rw [hst]; exact feedClose_self _ _ rfl)]
    simp [hclf]

/-- C6 witness: a single cutting move at feed 600 from the initial state
emits the feed word exactly once. -/
theorem C6_feed_word_emission_witness :
    feedWordCount (emitBodySt 3 ⟨none, none⟩
      [⟨.G1, some 0, none, none, some 600⟩]).1 = 1 := by
  have H := (C6_feed_word_emission 3 ⟨none, none⟩ ⟨.G0, none, none, none, none⟩ 600
    [⟨.G1, some 0, none, none, some 600⟩]
    (by intro mv hmv; simp at hmv; rw [hmv]; exact ⟨rfl, rfl⟩)
    (by simp)).2
  simpa [feedClose] using H

/-- C6, counterexample: the moves `G1 X0 F600; G0 X1; G1 X0 F600` emit the
body lines `G1 X0.000 F600 / G0 X1.000 / G1 X0.000`.  The third move is by
itself a maximal run of consecutive cutting moves with unchanged feed, yet
its line carries no feed word (the feed is modally suppressed across the
intervening rapid move), so "the feed word appears exactly once per such
run" fails. -/
theorem C6_feed_run_counterexample :
    (emitBodySt 3 ⟨none, none⟩
      [⟨.G1, some 0, none, none, some 600⟩, ⟨.G0, some 1, none, none, none⟩,
       ⟨.G1, some 0, none, none, some 600⟩]).1 =
      [["G1", "X0.000", "F600"], ["G0", "X1.000"], ["G1", "X0.000"]] ∧
    ((emitBodySt 3 ⟨none, none⟩
      [⟨.G1, some 0, none, none, some 600⟩, ⟨.G0, some 1, none, none, none⟩,
       ⟨.G1, some 0, none, none, some 600⟩]).1.getD 2 []).countP isFeedTok = 0 :=
  ⟨by with_unfolding_all rfl, by with_unfolding_all rfl⟩

/-- C3, counterexample: on a tetrahedron whose hull construction fails
(the hull function returns no cells), `analyzeConvexity`'s main path does
not return an all-zero result: the mesh volume field is the tetrahedron's
nonzero volume (only the hull volume is zeroed).  The claim's "numeric
fields are all zero" therefore fails for the failed-hull case. -/
theorem C3_hullfail_counterexample :
    (analyzeConvexityCore constPrims (fun _ => []) {} none
      [⟨0, 0, 0⟩, ⟨1, 0, 0⟩, ⟨0, 1, 0⟩, ⟨0, 0, 1⟩]
      [(0, 1, 2), (0, 1, 3), (0, 2, 3), (1, 2, 3)]).meshVolume = 1/6 ∧
    (analyzeConvexityCore constPrims (fun _ => []) {} none
      [⟨0, 0, 0⟩, ⟨1, 0, 0⟩, ⟨0, 1, 0⟩, ⟨0, 0, 1⟩]
      [(0, 1, 2), (0, 1, 3), (0, 2, 3), (1, 2, 3)]).hullVolume = 0 ∧
    ((1 : ℚ)/6 ≠ 0) :=
  ⟨by with_unfolding_all rfl, by with_unfolding_all rfl, by norm_num⟩

/-- C3 (amended): `analyzeConvexity` never throws.  A parse failure yields
the fully-populated catch result (all flags false, all numerics zero, the
message as diagnostic).  A near-2D bounding box after sanitize+weld takes
the early thin return, whose convexity flags and numerics are all
false/zero with a diagnostic string — but whose machinability is a fully
computed 2D analysis, not zeros.  A failed hull construction or a zero
mesh volume does not return early: the analysis continues with
`ratioRaw = 0`, so `isConvex` is false and `convexityRatio` is 0 (for any
positive volume tolerance), while the other numeric fields keep their
computed values. -/
theorem C3_degenerate_results (P : Prims) (hull : List V3 → List Cell)
    (opts : ConvexityOptions) (rot : Option ModelRotation)
    (positions0 : List V3) (cells0 : List Cell)
    (f32 : F32) (asciiParse : List ℕ → Except String (List (V3 × V3 × V3)))
    (bytes : List ℕ) (e : String)
    (positions : List V3) (cells : List Cell) (bb : BBoxC) (dq : ℚ) :
    (parseSTLc f32 asciiParse bytes = .error e →
      analyzeConvexity P hull f32 asciiParse bytes opts rot = errResult e) ∧
    ((errResult e).isConvex = false ∧ (errResult e).meshVolume = 0 ∧
      (errResult e).hullVolume = 0 ∧ (errResult e).convexityRatio = 0 ∧
      (errResult e).confidence = 0 ∧ (errResult e).error = some e) ∧
    (¬(positions0.length < 3 ∨ cells0.length < 1) →
      isThinBBox (bboxC P (sanWeldOf P opts rot positions0 cells0).1).dx
        (bboxC P (sanWeldOf P opts rot positions0 cells0).1).dy
        (bboxC P (sanWeldOf P opts rot positions0 cells0).1).dz
        (max (opts.eps.getD (1/1000000) *
          max (bboxC P (sanWeldOf P opts rot positions0 cells0).1).diag 1)
          (1/1000000000)) = true →
      analyzeConvexityCore P hull opts rot positions0 cells0 =
        thinResult P opts (sanWeldOf P opts rot positions0 cells0).1
          (sanWeldOf P opts rot positions0 cells0).2
          (bboxC P (sanWeldOf P opts rot positions0 cells0).1).dx) ∧
    ((thinResult P opts positions cells dq).isConvex = false ∧
      (thinResult P opts positions cells dq).meshVolume = 0 ∧
      (thinResult P opts positions cells dq).hullVolume = 0 ∧
      (thinResult P opts positions cells dq).convexityRatio = 0 ∧
      (thinResult P opts positions cells dq).confidence = 0 ∧
      (thinResult P opts positions cells dq).machinability =
        computeMachinabilityFromMesh P opts positions cells) ∧
    (hullCellsOf hull opts bb positions = [] →
      0 < opts.tolerance.getD (99/100) →
      (analyzeMain P hull opts positions cells bb).isConvex = false ∧
      (analyzeMain P hull opts positions cells bb).convexityRatio = 0 ∧
      (analyzeMain P hull opts positions cells bb).hullVolume = 0) ∧
    (vMeshNOf P bb positions cells = 0 →
      0 < opts.tolerance.getD (99/100) →
      (analyzeMain P hull opts positions cells bb).isConvex = false ∧
      (analyzeMain P hull opts positions cells bb).convexityRatio = 0 ∧
      (analyzeMain P hull opts positions cells bb).meshVolume = 0) := by
  refine ⟨?_, ⟨rfl, rfl, rfl, rfl, rfl, rfl⟩, ?_, ⟨rfl, rfl, rfl, rfl, rfl, rfl⟩, ?_, ?_⟩
  · intro h
    unfold analyzeConvexity
    rw [h]
  · intro h1 h2
    unfold analyzeConvexityCore
    rw [if_neg h1]
    dsimp only
    rw [if_pos h2]
  · intro hhull hvol
    have hv : vHullNOf hull opts bb positions = 0 := by
      unfold vHullNOf
      rw [hhull]
      simp
    have hr0 : ratioRawOf P hull opts bb positions cells = 0 := by
      unfold ratioRawOf
      rw [hv]
      simp
    have hIC : (analyzeMain P hull opts positions cells bb).isConvex =
        (decide (multiMaxOf P opts bb positions cells ≤ 5/1000) &&
         decide ((edgeStatsOf P bb positions cells).concaveRatio ≤ 2/1000) &&
         (decide (ratioRawOf P hull opts bb positions cells ≥ opts.tolerance.getD (99/100)) ||
          decide (ratioRawOf P hull opts bb positions cells > 95/100))) := rfl
    have hCR : (analyzeMain P hull opts positions cells bb).convexityRatio =
        clamp01 (ratioRawOf P hull opts bb positions cells) := rfl
    have hHV : (analyzeMain P hull opts positions cells bb).hullVolume =
        vHullNOf hull opts bb positions * scaleOf bb ^ 3 := rfl
    refine ⟨?_, ?_, ?_⟩
    · rw [hIC, hr0]
      have h1 : decide ((0 : ℚ) ≥ opts.tolerance.getD (99/100)) = false :=
        decide_eq_false (not_le.mpr hvol)
      have h2 : decide ((0 : ℚ) > 95/100) = false := decide_eq_false (by norm_num)
      rw [h1, h2]
      simp
    · rw [hCR, hr0]
      unfold clamp01
      norm_num
    · rw [hHV, hv, zero_mul]
  · intro hmesh hvol
    have hr0 : ratioRawOf P hull opts bb positions cells = 0 := by
      unfold ratioRawOf
      rw [hmesh]
      split
      · exact zero_div _
      · rfl
    have hIC : (analyzeMain P hull opts positions cells bb).isConvex =
        (decide (multiMaxOf P opts bb positions cells ≤ 5/1000) &&
         decide ((edgeStatsOf P bb positions cells).concaveRatio ≤ 2/1000) &&
         (decide (ratioRawOf P hull opts bb positions cells ≥ opts.tolerance.getD (99/100)) ||
          decide (ratioRawOf P hull opts bb positions cells > 95/100))) := rfl
    have hCR : (analyzeMain P hull opts positions cells bb).convexityRatio =
        clamp01 (ratioRawOf P hull opts bb positions cells) := rfl
    have hMV : (analyzeMain P hull opts positions cells bb).meshVolume =
        vMeshNOf P bb positions cells * scaleOf bb ^ 3 := rfl
    refine ⟨?_, ?_, ?_⟩
    · rw [hIC, hr0]
      have h1 : decide ((0 : ℚ) ≥ opts.tolerance.getD (99/100)) = false :=
        decide_eq_false (not_le.mpr hvol)
      have h2 : decide ((0 : ℚ) > 95/100) = false := decide_eq_false (by norm_num)
      rw [h1, h2]
      simp
    · rw [hCR, hr0]
      unfold clamp01
      norm_num
    · rw [hMV, hmesh, zero_mul]

/-- C3 witness: a single flat triangle (zero z-extent) takes the near-2D
early return with the computed machinability embedded. -/
theorem C3_degenerate_results_witness :
    analyzeConvexityCore constPrims (fun _ => []) {} none
      [⟨0, 0, 0⟩, ⟨1, 0, 0⟩, ⟨0, 1, 0⟩] [(0, 1, 2)] =
      thinResult constPrims {}
        (sanWeldOf constPrims {} none [⟨0, 0, 0⟩, ⟨1, 0, 0⟩, ⟨0, 1, 0⟩] [(0, 1, 2)]).1
        (sanWeldOf constPrims {} none [⟨0, 0, 0⟩, ⟨1, 0, 0⟩, ⟨0, 1, 0⟩] [(0, 1, 2)]).2
        (bboxC constPrims
          (sanWeldOf constPrims {} none [⟨0, 0, 0⟩, ⟨1, 0, 0⟩, ⟨0, 1, 0⟩] [(0, 1, 2)]).1).dx := by
  exact (C3_degenerate_results constPrims (fun _ => []) {} none
    [⟨0, 0, 0⟩, ⟨1, 0, 0⟩, ⟨0, 1, 0⟩] [(0, 1, 2)]
    (fun _ _ _ _ => 0) (fun _ => .error "") [] "" [] [] ⟨⟨0,0,0⟩,⟨0,0,0⟩,0,0,0,0⟩ 0).2.2.1
    (by decide) (of_decide_eq_true (by with_unfolding_all rfl))

/-! ## Slicer and toolpath lemmas for the bed-snap theorem -/

theorem except_ok_bind {α β : Type} (a : α) (f : α → Except String β) :
    (Except.ok a >>= f) = f a := rfl

theorem computeLayers_mem_ge (zMin zMax h : ℚ) (tD : Bool) (hh : 0 ≤ h) :
    ∀ z ∈ computeLayers zMin zMax h tD, zMin ≤ z := by
  intro z hz
  unfold computeLayers at hz
  have hz' : z ∈ (List.range (Nat.max 1 (jceil ((zMax - zMin) / h)).toNat + 1)).map
      (fun i : ℕ => zMin + (i : ℚ) * h) := by
    cases tD <;> simpa using hz
  obtain ⟨i, _, rfl⟩ := List.mem_map.mp hz'
  have : 0 ≤ (i : ℚ) * h := mul_nonneg (by positivity) hh
  linarith

theorem ite_none_some_eq {α : Type} {c : Prop} [Decidable c] {x y : α}
    (h : (if c then none else some x) = some y) : x = y := by
  split at h
  · exact absurd h (by simp)
  · exact (Option.some.injEq _ _).mp h

theorem sliceMesh_layer_z (P : Prims) (tris : List Triangle) (sp : SlicingParams) :
    ∀ layer ∈ sliceMesh P tris sp, layer.z ∈
      computeLayers (getMeshBounds tris).min.z (getMeshBounds tris).max.z
        sp.layerHeight (sp.topDown.getD true) := by
  intro layer hl
  unfold sliceMesh at hl
  obtain ⟨iz, hiz, hsome⟩ := List.mem_filterMap.mp hl
  have hz : layer.z = iz.2 := by
    dsimp only at hsome
    have := ite_none_some_eq hsome
    rw [← this]
  have hmem : iz.2 ∈ computeLayers (getMeshBounds tris).min.z (getMeshBounds tris).max.z
      sp.layerHeight (sp.topDown.getD true) := by
    have h1 : iz.2 ∈ (computeLayers (getMeshBounds tris).min.z (getMeshBounds tris).max.z
        sp.layerHeight (sp.topDown.getD true)).enum.map Prod.snd :=
      List.mem_map_of_mem Prod.snd hiz
    rwa [List.enum_map_snd] at h1
  rw [hz]
  exact hmem

theorem buildMoves_z (P : Prims) (layers : List Layer) (mp : MachineParams) :
    ∀ m ∈ buildMoves P layers mp,
      (m.type = .G1 → ∃ layer ∈ layers, m.z = some layer.z) ∧
      (m.type = .G0 → m.z = some mp.zSafe) := by
  intro m hm
  unfold buildMoves at hm
  obtain ⟨layer, hlay, hm⟩ := List.mem_flatMap.mp hm
  obtain ⟨poly, _, hm⟩ := List.mem_flatMap.mp hm
  unfold polyMoves at hm
  cases hpts : poly.points with
  | nil =>
    rw [hpts] at hm
    exact absurd hm (by simp)
  | cons start rest =>
    rw [hpts] at hm
    dsimp only at hm
    simp only [List.append_assoc, List.mem_append, List.mem_cons, List.mem_singleton,
      List.mem_map, List.not_mem_nil, or_false] at hm
    rcases hm with (hm | hm) | hm | hm | hm
    · subst hm
      exact ⟨fun h => absurd h (by simp), fun _ => rfl⟩
    · subst hm
      exact ⟨fun _ => ⟨layer, hlay, rfl⟩, fun h => absurd h (by simp)⟩
    · by_cases hcond : mp.leadIn > 0 ∧ 2 ≤ (start :: rest).length
      · rw [if_pos hcond] at hm
        have := List.mem_singleton.mp hm
        subst this
        exact ⟨fun _ => ⟨layer, hlay, rfl⟩, fun h => absurd h (by simp)⟩
      · rw [if_neg hcond] at hm
        exact absurd hm (by simp)
    · obtain ⟨pt, _, hpt⟩ := hm
      subst hpt
      exact ⟨fun _ => ⟨layer, hlay, rfl⟩, fun h => absurd h (by simp)⟩
    · subst hm
      exact ⟨fun h => absurd h (by simp), fun _ => rfl⟩

/-- C8: with bed-snapping enabled, the generated program is exactly the
program over the moves shifted by the XY margin translation and by
`zLift = max(0, (zBed+zGap) − minZ)` in Z, with the safe-Z header lifted
by the same amount; every cutting move's lifted Z clears `zBed + zGap`
(nonnegative layer heights put all cut levels at or above `minZ`); and
when `minZ` already clears `zBed + zGap` the lift is zero, so no Z
coordinate changes. -/
theorem C8_bed_snap (P : Prims) (f32 : F32) (bytes : List ℕ) (rotation : ModelRotation)
    (sp : SlicingParams) (mp : MachineParams) (gcp : GCodeParams) (tris0 : List Triangle)
    (minZ tx ty zl : ℚ) (moves : List Move) (lns : List String)
    (hparse : parseSTLg f32 bytes = .ok tris0)
    (hsnap : mp.snapBottomToBed.getD true = true)
    (hlh : 0 ≤ sp.layerHeight)
    (hminZ : minZ = (getMeshBounds (rotatedTrisOf P tris0 rotation)).min.z)
    (htx : tx = -(getMeshBounds (rotatedTrisOf P tris0 rotation)).min.x + mp.xyMargin.getD 0)
    (hty : ty = -(getMeshBounds (rotatedTrisOf P tris0 rotation)).min.y + mp.xyMargin.getD 0)
    (hzl : zl = zLiftOf mp minZ)
    (hmoves : moves = buildMoves P (sliceMesh P (rotatedTrisOf P tris0 rotation) sp) mp)
    (hlns : lns = generateGCode P (moves.map (shiftMove tx ty zl))
      { gcp with zSafe := gcp.zSafe + zl }) :
    generateGCodeFromSTL P f32 bytes rotation sp mp gcp = .ok
      ⟨String.intercalate "\n" lns, lns.length,
        (sliceMesh P (rotatedTrisOf P tris0 rotation) sp).length⟩ ∧
    (∀ m ∈ moves, ∀ zv : ℚ, m.type = .G1 → m.z = some zv →
      mp.zBed.getD 0 + mp.zGap.getD 0 ≤ zv + zl) ∧
    (mp.zBed.getD 0 + mp.zGap.getD 0 ≤ minZ → zl = 0) := by
  subst hminZ htx hty hzl hmoves hlns
  refine ⟨?_, ?_, ?_⟩
  · unfold generateGCodeFromSTL
    rw [hparse, except_ok_bind]
    rfl
  · intro m hm zv hty' hz
    obtain ⟨layer, hlay, hzl'⟩ := (buildMoves_z P _ mp m hm).1 hty'
    rw [hz] at hzl'
    have hzv : zv = layer.z := (Option.some.injEq _ _).mp hzl'.symm |>.symm
    have hmem := sliceMesh_layer_z P (rotatedTrisOf P tris0 rotation) sp layer hlay
    have hge := computeLayers_mem_ge _ _ _ _ hlh layer.z hmem
    have hlift : zLiftOf mp ((getMeshBounds (rotatedTrisOf P tris0 rotation)).min.z) ≥
        mp.zBed.getD 0 + mp.zGap.getD 0 -
          (getMeshBounds (rotatedTrisOf P tris0 rotation)).min.z := by
      unfold zLiftOf
      rw [if_pos hsnap]
      exact le_max_right _ _
    rw [hzv]
    linarith
  · intro hle
    unfold zLiftOf
    rw [if_pos hsnap]
    exact max_eq_left (by linarith)

set_option maxRecDepth 8000 in
/-- C8 witness: a concrete one-triangle binary STL run through the full
pipeline with bed-snapping on (defaults), yielding the lifted program. -/
theorem C8_bed_snap_witness :
    generateGCodeFromSTL constPrims (fun _ _ _ _ => 0)
      (List.replicate 80 0 ++ [1, 0, 0, 0] ++ List.replicate 50 0) ⟨0, 0, 0⟩
      ⟨1/2, 1/100, true, true, none⟩ ⟨5, 1/2, 600, 300, none, none, none, none⟩
      ⟨true, true, true, 1000, 5, "P", "; ", 3⟩ = .ok
      ⟨String.intercalate "\n"
        (generateGCode constPrims [] ⟨true, true, true, 1000, 5 + 0, "P", "; ", 3⟩),
       (generateGCode constPrims [] ⟨true, true, true, 1000, 5 + 0, "P", "; ", 3⟩).length,
       (sliceMesh constPrims
         (rotatedTrisOf constPrims [⟨⟨0,0,0⟩, ⟨0,0,0⟩, ⟨0,0,0⟩, ⟨0,0,0⟩⟩] ⟨0, 0, 0⟩)
         ⟨1/2, 1/100, true, true, none⟩).length⟩ := by
  have H := (C8_bed_snap constPrims (fun _ _ _ _ => 0)
    (List.replicate 80 0 ++ [1, 0, 0, 0] ++ List.replicate 50 0) ⟨0, 0, 0⟩
    ⟨1/2, 1/100, true, true, none⟩ ⟨5, 1/2, 600, 300, none, none, none, none⟩
    ⟨true, true, true, 1000, 5, "P", "; ", 3⟩
    [⟨⟨0,0,0⟩, ⟨0,0,0⟩, ⟨0,0,0⟩, ⟨0,0,0⟩⟩] 0 0 0 0 []
    (generateGCode constPrims [] ⟨true, true, true, 1000, 5 + 0, "P", "; ", 3⟩)
    (by with_unfolding_all rfl) rfl (by norm_num)
    (by with_unfolding_all rfl) (by with_unfolding_all rfl) (by with_unfolding_all rfl)
    (by with_unfolding_all rfl) (by with_unfolding_all rfl) (by with_unfolding_all rfl)).1
  exact H

/-! ## Association-lookup lemmas for the weld idempotence theorem -/

theorem alookup_cons {β : Type} (key k : WKey) (v : β) (rest : List (WKey × β)) :
    alookup key ((k, v) :: rest) = if k = key then some v else alookup key rest := rfl

theorem alookup_append_left_none {β : Type} {key : WKey} {l1 : List (WKey × β)}
    (l2 : List (WKey × β)) (h : alookup key l1 = none) :
    alookup key (l1 ++ l2) = alookup key l2 := by
  induction l1 with
  | nil => rfl
  | cons kv rest ih =>
    obtain ⟨k, v⟩ := kv
    rw [List.cons_append, alookup_cons]
    rw [alookup_cons] at h
    split at h
    · exact absurd h (by simp)
    · rename_i hk
      rw [if_neg hk]
      exact ih h

theorem alookup_append_left_some {β : Type} {key : WKey} {l1 : List (WKey × β)} {v : β}
    (l2 : List (WKey × β)) (h : alookup key l1 = some v) :
    alookup key (l1 ++ l2) = some v := by
  induction l1 with
  | nil => exact absurd h (by simp [alookup])
  | cons kv rest ih =>
    obtain ⟨k, w⟩ := kv
    rw [List.cons_append, alookup_cons]
    rw [alookup_cons] at h
    split at h
    · rename_i hk
      rw [if_pos hk]
      exact h
    · rename_i hk
      rw [if_neg hk]
      exact ih h

theorem alookup_mem {β : Type} {key : WKey} {l : List (WKey × β)} {v : β}
    (h : alookup key l = some v) : ∃ k, (k, v) ∈ l := by
  induction l with
  | nil => exact absurd h (by simp [alookup])
  | cons kv rest ih =>
    obtain ⟨k, w⟩ := kv
    rw [alookup_cons] at h
    split at h
    · have := (Option.some.injEq _ _).mp h
      exact ⟨k, by rw [this]; exact List.mem_cons_self _ _⟩
    · obtain ⟨k', hk'⟩ := ih h
      exact ⟨k', List.mem_cons_of_mem _ hk'⟩

theorem alookup_eq_none_iff {β : Type} (key : WKey) (l : List (WKey × β)) :
    alookup key l = none ↔ ∀ kv ∈ l, kv.1 ≠ key := by
  induction l with
  | nil => simp [alookup]
  | cons kv rest ih =>
    obtain ⟨k, v⟩ := kv
    rw [alookup_cons]
    constructor
    · intro h
      split at h
      · exact absurd h (by simp)
      · rename_i hk
        intro kv' hkv'
        rcases List.mem_cons.mp hkv' with h' | h'
        · rw [h']
          exact hk
        · exact (ih.mp h) kv' h'
    · intro h
      rw [if_neg (h (k, v) (List.mem_cons_self _ _))]
      exact ih.mpr fun kv' hkv' => h kv' (List.mem_cons_of_mem _ hkv')

/-! ## Weld pass invariants -/

/-- Welding a list whose keys are already pairwise distinct is the
identity: each vertex becomes its own representative. -/
theorem weldVertsAux_all_new (eps : ℚ) :
    ∀ (qs : List V3) (map : List (WKey × ℕ)) (posOut : List V3) (remap : List ℕ),
      (List.map (weldKey eps) qs).Nodup →
      (∀ q ∈ qs, alookup (weldKey eps q) map = none) →
      weldVertsAux eps qs map posOut remap =
        (posOut ++ qs, remap ++ (List.range qs.length).map fun i => posOut.length + i) := by
  intro qs
  induction qs with
  | nil =>
    intro map posOut remap _ _
    simp [weldVertsAux]
  | cons q rest ih =>
    intro map posOut remap hnd hnone
    have hnd' : weldKey eps q ∉ List.map (weldKey eps) rest ∧
        (List.map (weldKey eps) rest).Nodup := by
      rw [List.map_cons, List.nodup_cons] at hnd
      exact hnd
    have hk : weldKey eps q ∉ List.map (weldKey eps) rest := hnd'.1
    unfold weldVertsAux
    rw [hnone q (List.mem_cons_self _ _)]
    rw [ih (map ++ [(weldKey eps q, posOut.length)]) (posOut ++ [q]) (remap ++ [posOut.length])
      hnd'.2 ?_]
    · dsimp only
      refine Prod.ext ?_ ?_
      · simp
      · dsimp only
        rw [List.append_assoc]
        congr 1
        rw [List.length_cons, List.range_succ_eq_map, List.map_cons, List.map_map,
          List.singleton_append]
        congr 1
        all_goals
          refine List.map_congr_left fun i _ => ?_
          simp only [Function.comp_apply, List.length_append, List.length_singleton]
          omega
    · intro q' hq'
      rw [alookup_append_left_none _ (hnone q' (List.mem_cons_of_mem _ hq'))]
      rw [alookup_cons]
      rw [if_neg]
      · rfl
      · intro hkeq
        exact hk (hkeq ▸ List.mem_map_of_mem (weldKey eps) hq')

/-- The welded vertex list has pairwise-distinct keys. -/
theorem weldVertsAux_nodup (eps : ℚ) :
    ∀ (ps : List V3) (map : List (WKey × ℕ)) (posOut : List V3) (remap : List ℕ),
      (List.map (weldKey eps) posOut).Nodup →
      (∀ q ∈ posOut, alookup (weldKey eps q) map ≠ none) →
      ((weldVertsAux eps ps map posOut remap).1.map (weldKey eps)).Nodup := by
  intro ps
  induction ps with
  | nil =>
    intro map posOut remap h1 _
    simpa [weldVertsAux] using h1
  | cons p rest ih =>
    intro map posOut remap h1 h2
    unfold weldVertsAux
    cases hl : alookup (weldKey eps p) map with
    | some idx => exact ih map posOut (remap ++ [idx]) h1 h2
    | none =>
      apply ih
      · rw [List.map_append]
        refine List.Nodup.append h1 (by simp) ?_
        intro a ha hb
        simp only [List.map_cons, List.map_nil, List.mem_singleton] at hb
        obtain ⟨q, hq, hqa⟩ := List.mem_map.mp ha
        apply h2 q hq
        rw [hqa, hb]
        exact hl
      · intro q hq
        rcases List.mem_append.mp hq with hq' | hq'
        · cases hml : alookup (weldKey eps q) map with
          | some v =>
            rw [alookup_append_left_some _ hml]
            simp
          | none => exact absurd hml (h2 q hq')
        · have hq'' : q = p := by simpa using hq'
          rw [hq'', alookup_append_left_none _ hl, alookup_cons, if_pos rfl]
          simp

/-- Every remap entry indexes into the welded vertex list. -/
theorem weldVertsAux_remap_lt (eps : ℚ) :
    ∀ (ps : List V3) (map : List (WKey × ℕ)) (posOut : List V3) (remap : List ℕ),
      (∀ kv ∈ map, kv.2 < posOut.length) →
      (∀ v ∈ remap, v < posOut.length) →
      ∀ v ∈ (weldVertsAux eps ps map posOut remap).2,
        v < (weldVertsAux eps ps map posOut remap).1.length := by
  intro ps
  induction ps with
  | nil =>
    intro map posOut remap _ hrm v hv
    simpa [weldVertsAux] using hrm v (by simpa [weldVertsAux] using hv)
  | cons p rest ih =>
    intro map posOut remap hmap hrm
    unfold weldVertsAux
    cases hl : alookup (weldKey eps p) map with
    | some idx =>
      apply ih map posOut (remap ++ [idx]) hmap
      intro v hv
      rcases List.mem_append.mp hv with hv' | hv'
      · exact hrm v hv'
      · have : v = idx := by simpa using hv'
        obtain ⟨k, hk⟩ := alookup_mem hl
        rw [this]
        exact hmap (k, idx) hk
    | none =>
      apply ih
      · intro kv hkv
        rcases List.mem_append.mp hkv with hkv' | hkv'
        · have := hmap kv hkv'
          simp only [List.length_append, List.length_singleton]
          omega
        · have : kv = (weldKey eps p, posOut.length) := by simpa using hkv'
          rw [this]
          simp
      · intro v hv
        rcases List.mem_append.mp hv with hv' | hv'
        · have := hrm v hv'
          simp only [List.length_append, List.length_singleton]
          omega
        · have : v = posOut.length := by simpa using hv'
          rw [this]
          simp

theorem filterMap_id_of_forall {α : Type} {f : α → Option α} :
    ∀ {l : List α}, (∀ a ∈ l, f a = some a) → l.filterMap f = l := by
  intro l
  induction l with
  | nil => intro _; rfl
  | cons a rest ih =>
    intro h
    rw [List.filterMap_cons, h a (List.mem_cons_self _ _),
      ih fun a' ha' => h a' (List.mem_cons_of_mem _ ha')]

/-- C7: welding is idempotent — re-welding the welded mesh with the same
epsilon returns the very same vertex list and cell list (hence identical
counts).  The hypothesis restricts to meshes whose cells reference
existing vertices, which holds for every mesh built by the pipeline. -/
theorem C7_weld_idempotent (positions : List V3) (cells : List Cell) (eps : ℚ)
    (_hvalid : ∀ c ∈ cells, c.1 < positions.length ∧ c.2.1 < positions.length ∧
      c.2.2 < positions.length) :
    weldMesh (weldMesh positions cells eps).1 (weldMesh positions cells eps).2 eps =
      weldMesh positions cells eps := by
  have hnd : ((weldVerts eps positions).1.map (weldKey eps)).Nodup :=
    weldVertsAux_nodup eps positions [] [] [] (by simp) (by simp)
  have hrmlt : ∀ v ∈ (weldVerts eps positions).2, v < (weldVerts eps positions).1.length :=
    weldVertsAux_remap_lt eps positions [] [] [] (by simp) (by simp)
  have hid : weldVerts eps (weldVerts eps positions).1 =
      ((weldVerts eps positions).1, List.range (weldVerts eps positions).1.length) := by
    have := weldVertsAux_all_new eps (weldVerts eps positions).1 [] [] [] hnd
      (by intro q _; rfl)
    rw [weldVerts, this]
    simp
  -- cell entries of the first weld: bounded and pairwise distinct
  have hcells : ∀ c ∈ (weldMesh positions cells eps).2,
      c.1 < (weldVerts eps positions).1.length ∧
      c.2.1 < (weldVerts eps positions).1.length ∧
      c.2.2 < (weldVerts eps positions).1.length ∧
      c.1 ≠ c.2.1 ∧ c.2.1 ≠ c.2.2 ∧ c.1 ≠ c.2.2 := by
    intro c hc
    unfold weldMesh at hc
    obtain ⟨c0, _, hsome⟩ := List.mem_filterMap.mp hc
    cases h1 : (weldVerts eps positions).2.get? c0.1 with
    | none => rw [h1] at hsome; exact absurd hsome (by simp)
    | some i =>
      cases h2 : (weldVerts eps positions).2.get? c0.2.1 with
      | none => rw [h1, h2] at hsome; exact absurd hsome (by simp)
      | some j =>
        cases h3 : (weldVerts eps positions).2.get? c0.2.2 with
        | none => rw [h1, h2, h3] at hsome; exact absurd hsome (by simp)
        | some k =>
          rw [h1, h2, h3] at hsome
          dsimp only at hsome
          by_cases hcond : i = j ∨ j = k ∨ i = k
          · rw [if_pos hcond] at hsome
            exact absurd hsome (by simp)
          · rw [if_neg hcond] at hsome
            have hceq : c = (i, j, k) := ((Option.some.injEq _ _).mp hsome).symm
            push_neg at hcond
            have hi := hrmlt i (List.get?_mem h1)
            have hj := hrmlt j (List.get?_mem h2)
            have hk := hrmlt k (List.get?_mem h3)
            rw [hceq]
            exact ⟨hi, hj, hk, hcond.1, hcond.2.1, hcond.2.2⟩
  -- second weld: the vertex pass is the identity, the cell pass keeps
  -- every cell
  have hpos2 : (weldMesh (weldMesh positions cells eps).1 (weldMesh positions cells eps).2 eps).1 =
      (weldMesh positions cells eps).1 := by
    show (weldVerts eps (weldVerts eps positions).1).1 = (weldVerts eps positions).1
    rw [hid]
  have hcells2 : (weldMesh (weldMesh positions cells eps).1 (weldMesh positions cells eps).2 eps).2 =
      (weldMesh positions cells eps).2 := by
    show ((weldMesh positions cells eps).2.filterMap fun c =>
        match (weldVerts eps (weldVerts eps positions).1).2.get? c.1,
          (weldVerts eps (weldVerts eps positions).1).2.get? c.2.1,
          (weldVerts eps (weldVerts eps positions).1).2.get? c.2.2 with
        | some i, some j, some k2 =>
          if i = j ∨ j = k2 ∨ i = k2 then none else some (i, j, k2)
        | _, _, _ => none) = (weldMesh positions cells eps).2
    rw [hid]
    apply filterMap_id_of_forall
    intro c hc
    obtain ⟨hi, hj, hk2, hij, hjk, hik⟩ := hcells c hc
    rw [List.get?_range hi, List.get?_range hj, List.get?_range hk2]
    dsimp only
    rw [if_neg]
    push_neg
    exact ⟨hij, hjk, hik⟩
  exact Prod.ext hpos2 hcells2

/-- C7 witness: a concrete triangle with duplicated vertices welds to
three vertices, and re-welding returns the identical mesh. -/
theorem C7_weld_idempotent_witness :
    weldMesh
      (weldMesh [⟨0, 0, 0⟩, ⟨1, 0, 0⟩, ⟨0, 1, 0⟩, ⟨0, 0, 0⟩] [(0, 1, 2), (1, 2, 3)] 1).1
      (weldMesh [⟨0, 0, 0⟩, ⟨1, 0, 0⟩, ⟨0, 1, 0⟩, ⟨0, 0, 0⟩] [(0, 1, 2), (1, 2, 3)] 1).2 1 =
      weldMesh [⟨0, 0, 0⟩, ⟨1, 0, 0⟩, ⟨0, 1, 0⟩, ⟨0, 0, 0⟩] [(0, 1, 2), (1, 2, 3)] 1 :=
  C7_weld_idempotent [⟨0, 0, 0⟩, ⟨1, 0, 0⟩, ⟨0, 1, 0⟩, ⟨0, 0, 0⟩] [(0, 1, 2), (1, 2, 3)] 1
    (by decide)

end Gcoder

